import Mathlib

/-!
Verification of the frontier/scheduling core of the `spacetime-crawler4py`
repository against its natural-language specification.

The Python sources are shallowly embedded: pure functions become Lean
functions, stateful methods become explicit state-passing functions, Python
exceptions become `Except PyErr`, machine-independent Python integers become
`Nat`/`Int`.  External collaborators (the HTTP fetcher, the HTML extractor,
lxml, the wall clock, Python's salted builtin `hash`) are modelled at their
interfaces, as the specification prescribes.
-/

/-- Python exceptions that the embedded code can raise.  `recursionError`
also stands for exhaustion of the explicit fuel that bounds the (in Python,
stack-bounded) sitemap recursion. -/
inductive PyErr where
  | nameError
  | attributeError
  | typeError
  | valueError
  | recursionError
  deriving DecidableEq, Repr

deriving instance DecidableEq for Except

/-! ## SHA-256 (`hashlib.sha256`, used by `utils.get_urlhash`)

Executable implementation of FIPS 180-4 SHA-256 over a list of bytes,
so that `get_urlhash` can be evaluated on concrete URLs. -/

/-- Truncate to a 32-bit word. -/
def w32 (n : Nat) : Nat := n % 4294967296

/-- Rotate a 32-bit word right by `n` bits. -/
def rotr32 (n x : Nat) : Nat := w32 ((x >>> n) ||| (x <<< (32 - n)))

/-- Bitwise complement of a 32-bit word. -/
def not32 (x : Nat) : Nat := x ^^^ 4294967295

def sha256Ch (e f g : Nat) : Nat := (e &&& f) ^^^ (not32 e &&& g)

def sha256Maj (a b c : Nat) : Nat := (a &&& b) ^^^ (a &&& c) ^^^ (b &&& c)

def sha256S0 (a : Nat) : Nat := rotr32 2 a ^^^ rotr32 13 a ^^^ rotr32 22 a

def sha256S1 (e : Nat) : Nat := rotr32 6 e ^^^ rotr32 11 e ^^^ rotr32 25 e

def sha256s0 (x : Nat) : Nat := rotr32 7 x ^^^ rotr32 18 x ^^^ (x >>> 3)

def sha256s1 (x : Nat) : Nat := rotr32 17 x ^^^ rotr32 19 x ^^^ (x >>> 10)

/-- The 64 SHA-256 round constants. -/
def sha256K : List Nat :=
  [1116352408, 1899447441, 3049323471, 3921009573, 961987163,
   1508970993, 2453635748, 2870763221, 3624381080, 310598401,
   607225278, 1426881987, 1925078388, 2162078206, 2614888103,
   3248222580, 3835390401, 4022224774, 264347078, 604807628,
   770255983, 1249150122, 1555081692, 1996064986, 2554220882,
   2821834349, 2952996808, 3210313671, 3336571891, 3584528711,
   113926993, 338241895, 666307205, 773529912, 1294757372,
   1396182291, 1695183700, 1986661051, 2177026350, 2456956037,
   2730485921, 2820302411, 3259730800, 3345764771, 3516065817,
   3600352804, 4094571909, 275423344, 430227734, 506948616,
   659060556, 883997877, 958139571, 1322822218, 1537002063,
   1747873779, 1955562222, 2024104815, 2227730452, 2361852424,
   2428436474, 2756734187, 3204031479, 3329325298]

/-- Initial SHA-256 hash state. -/
def sha256H0 : List Nat :=
  [1779033703, 3144134277, 1013904242, 2773480762,
   1359893119, 2600822924, 528734635, 1541459225]

/-- Extend the 16 block words to the 64-entry message schedule.  The
accumulator holds the words most-recent-first. -/
def sha256Extend : Nat → List Nat → List Nat
  | 0, acc => acc.reverse
  | n + 1, acc =>
      let nw := w32 (sha256s1 (acc.get! 1) + acc.get! 6 +
                     sha256s0 (acc.get! 14) + acc.get! 15)
      sha256Extend n (nw :: acc)

/-- One round of the SHA-256 compression function. -/
def sha256Round (st : List Nat) (kw : Nat × Nat) : List Nat :=
  match st with
  | [a, b, c, d, e, f, g, h] =>
      let t1 := w32 (h + sha256S1 e + sha256Ch e f g + kw.1 + kw.2)
      let t2 := w32 (sha256S0 a + sha256Maj a b c)
      [w32 (t1 + t2), a, b, c, w32 (d + t1), e, f, g]
  | other => other

/-- Compress one 64-byte block (given as 16 words) into the hash state. -/
def sha256Block (h : List Nat) (ws : List Nat) : List Nat :=
  let sched := sha256Extend 48 ws.reverse
  let out := (sha256K.zip sched).foldl sha256Round h
  (h.zip out).map (fun p => w32 (p.1 + p.2))

/-- Helper for `chunks`: structural recursion over the list, carrying the
current chunk (reversed) and its size. -/
def chunksAux (n : Nat) : List α → List α → Nat → List (List α)
  | [], acc, _ => if acc.isEmpty then [] else [acc.reverse]
  | a :: l, acc, c =>
      if c + 1 == n then (a :: acc).reverse :: chunksAux n l [] 0
      else chunksAux n l (a :: acc) (c + 1)

/-- Split a list into chunks of `n` elements (`n > 0`). -/
def chunks (n : Nat) (l : List α) : List (List α) := chunksAux n l [] 0

/-- Big-endian 32-bit word from 4 bytes. -/
def beWord : List Nat → Nat
  | [b0, b1, b2, b3] => ((b0 <<< 24) ||| (b1 <<< 16) ||| (b2 <<< 8) ||| b3)
  | _ => 0

/-- The 8 big-endian bytes of a 64-bit length field. -/
def be64 (n : Nat) : List Nat :=
  [(n >>> 56) &&& 255, (n >>> 48) &&& 255, (n >>> 40) &&& 255,
   (n >>> 32) &&& 255, (n >>> 24) &&& 255, (n >>> 16) &&& 255,
   (n >>> 8) &&& 255, n &&& 255]

/-- SHA-256 padding: append `0x80`, zero-fill to 56 mod 64, then the
64-bit big-endian bit length. -/
def sha256Pad (msg : List Nat) : List Nat :=
  let len := msg.length
  let zeros := (64 + 56 - ((len + 1) % 64)) % 64
  msg ++ [0x80] ++ List.replicate zeros 0 ++ be64 (len * 8)

/-- SHA-256 of a byte list, as the 8 words of the final hash state. -/
def sha256Words (msg : List Nat) : List Nat :=
  let blocks := chunks 64 (sha256Pad msg)
  blocks.foldl (fun h b => sha256Block h ((chunks 4 b).map beWord)) sha256H0

/-- Lower-case hex digit. -/
def hexDigit (n : Nat) : Char :=
  if n < 10 then Char.ofNat (48 + n) else Char.ofNat (87 + n)

/-- 8 hex digits of a 32-bit word. -/
def hexWord (w : Nat) : List Char :=
  [hexDigit ((w >>> 28) &&& 15), hexDigit ((w >>> 24) &&& 15),
   hexDigit ((w >>> 20) &&& 15), hexDigit ((w >>> 16) &&& 15),
   hexDigit ((w >>> 12) &&& 15), hexDigit ((w >>> 8) &&& 15),
   hexDigit ((w >>> 4) &&& 15), hexDigit (w &&& 15)]

/-- UTF-8 encoding of one character (Python `str.encode("utf-8")`). -/
def utf8Bytes (c : Char) : List Nat :=
  let n := c.toNat
  if n < 0x80 then [n]
  else if n < 0x800 then
    [0xC0 ||| (n >>> 6), 0x80 ||| (n &&& 0x3F)]
  else if n < 0x10000 then
    [0xE0 ||| (n >>> 12), 0x80 ||| ((n >>> 6) &&& 0x3F), 0x80 ||| (n &&& 0x3F)]
  else
    [0xF0 ||| (n >>> 18), 0x80 ||| ((n >>> 12) &&& 0x3F),
     0x80 ||| ((n >>> 6) &&& 0x3F), 0x80 ||| (n &&& 0x3F)]

/-- UTF-8 encoding of a string. -/
def strUtf8 (s : String) : List Nat := s.toList.flatMap utf8Bytes

/-- `hashlib.sha256(s.encode("utf-8")).hexdigest()`. -/
def sha256Hex (s : String) : String :=
  String.mk ((sha256Words (strUtf8 s)).flatMap hexWord)

example : sha256Hex "abc" =
    "ba7816bf8f01cfea414140de5dae2223b00361a396177a9cb410ff61f20015ad" := by
  decide

example : sha256Hex "" =
    "e3b0c44298fc1c149afbf4c8996fb92427ae41e4649b934ca495991b7852b855" := by
  decide

namespace Crawler

/-! ## `urllib.parse.urlparse` (external collaborator, modelled at its
interface for the absolute/relative HTTP URL shapes this crawler handles)

Translated from CPython's `urllib/parse.py`: the scheme is split at the
first `:` when the candidate scheme is alphabetic-led and made of scheme
characters; a netloc follows `//` up to the next `/?#`; the fragment is
everything after the first `#` of the remainder; the query follows the
first `?` of what precedes the fragment; `params` follow the first `;` of
the last path segment, but only when the (lower-cased) scheme is in
`urllib.parse.uses_params` — otherwise the `;` stays in the path. -/

/-- Break a list at the first occurrence of `c`, dropping it.  Returns
`none` when `c` does not occur. -/
def breakChar (c : Char) : List Char → Option (List Char × List Char)
  | [] => none
  | a :: l =>
      if a = c then some ([], l)
      else (breakChar c l).map (fun p => (a :: p.1, p.2))

/-- Characters allowed in a URL scheme (`urllib.parse.scheme_chars`). -/
def schemeChar (c : Char) : Bool :=
  c.isAlphanum || c = '+' || c = '-' || c = '.'

/-- Split off the scheme, lower-cased, as CPython's `urlsplit` does. -/
def splitScheme (cs : List Char) : List Char × List Char :=
  match breakChar ':' cs with
  | none => ([], cs)
  | some (pre, post) =>
      if pre ≠ [] ∧ pre.headI.isAlpha ∧ pre.all schemeChar then
        (pre.map Char.toLower, post)
      else ([], cs)

/-- Is `c` a netloc delimiter (`/`, `?` or `#`)? -/
def netlocDelim (c : Char) : Bool := c = '/' || c = '?' || c = '#'

/-- The six components of a parsed URL, over character lists. -/
structure UrlParts where
  scheme : List Char
  netloc : List Char
  path : List Char
  params : List Char
  query : List Char
  fragment : List Char
  deriving DecidableEq, Repr

/-- CPython's `_splitparams`: split params off the last path segment. -/
def splitParams (cs : List Char) : List Char × List Char :=
  if cs.contains ';' then
    if cs.contains '/' then
      match breakChar '/' cs.reverse with
      | some (revSeg, revPre) =>
          match breakChar ';' revSeg.reverse with
          | some (a, b) => (revPre.reverse ++ '/' :: a, b)
          | none => (cs, [])
      | none => (cs, [])
    else
      match breakChar ';' cs with
      | some (a, b) => (a, b)
      | none => (cs, [])
  else (cs, [])

/-- `urllib.parse.uses_params` (CPython 3.11): the schemes for which
`urlparse` splits `params` off the path.  Note `''` is a member. -/
def uses_params : List (List Char) :=
  [[], "ftp".toList, "hdl".toList, "prospero".toList, "http".toList,
   "imap".toList, "https".toList, "shttp".toList, "rtsp".toList,
   "rtsps".toList, "rtspu".toList, "sip".toList, "sips".toList,
   "mms".toList, "sftp".toList, "tel".toList]

/-- `scheme in uses_params`, the gate on params splitting in `urlparse`
(the scheme reaching it is already lower-cased by `urlsplit`). -/
def usesParams (scheme : List Char) : Bool := uses_params.contains scheme

/-- The components of a parsed URL below the scheme; how they are cut
still depends on the scheme through the `uses_params` gate `useP`. -/
structure RestParts where
  netloc : List Char
  path : List Char
  params : List Char
  query : List Char
  fragment : List Char
  deriving DecidableEq, Repr

/-- Split path and params off the pre-query remainder; `useP` is the
`scheme in uses_params` gate (`';' in url` is checked in `splitParams`). -/
def restP (useP : Bool) (netloc r3 query fragment : List Char) : RestParts :=
  let pp := if useP then splitParams r3 else (r3, [])
  ⟨netloc, pp.1, pp.2, query, fragment⟩

/-- Split the query off the pre-fragment remainder. -/
def restQP (useP : Bool) (netloc r2 fragment : List Char) : RestParts :=
  match breakChar '?' r2 with
  | some (a, q) => restP useP netloc a q fragment
  | none => restP useP netloc r2 [] fragment

/-- Parse everything after the scheme: netloc, then fragment, then query,
then path/params (the last gated on `useP`). -/
def parseRest (useP : Bool) (rest : List Char) : RestParts :=
  let hasNetloc := rest.take 2 = ['/', '/']
  let netloc := if hasNetloc then (rest.drop 2).takeWhile (fun c => !netlocDelim c) else []
  let r1 := if hasNetloc then (rest.drop 2).dropWhile (fun c => !netlocDelim c) else rest
  match breakChar '#' r1 with
  | some (a, b) => restQP useP netloc a b
  | none => restQP useP netloc r1 []

/-- Attach the scheme to the lower components, instantiating the
`uses_params` gate with this scheme's membership. -/
def parseAfterScheme (scheme rest : List Char) : UrlParts :=
  let c := parseRest (usesParams scheme) rest
  ⟨scheme, c.netloc, c.path, c.params, c.query, c.fragment⟩

/-- `urllib.parse.urlparse` over character lists. -/
def urlparseCL (cs : List Char) : UrlParts :=
  let (scheme, rest) := splitScheme cs
  parseAfterScheme scheme rest

/-- `urllib.parse.urlparse`. -/
def urlparse (s : String) : UrlParts := urlparseCL s.toList

/-- `parsed.hostname`: strip the userinfo (`rpartition('@')`), strip the
port, lower-case.  An empty result models Python's `None`. -/
def hostnameOf (netloc : List Char) : List Char :=
  let afterAt := match breakChar '@' netloc.reverse with
    | some (revHost, _) => revHost.reverse
    | none => netloc
  (afterAt.takeWhile (· ≠ ':')).map Char.toLower

/-- `ParseResult.geturl()` after `._replace(fragment="")`, i.e. CPython's
`urlunparse` with an empty fragment. -/
def geturlNoFragCL (p : UrlParts) : List Char :=
  let u0 := p.path ++ (if p.params.isEmpty then [] else ';' :: p.params)
  let u1 :=
    if !p.netloc.isEmpty || u0.take 2 = ['/', '/'] then
      '/' :: '/' :: (p.netloc ++
        (if !u0.isEmpty && u0.headI ≠ '/' then '/' :: u0 else u0))
    else u0
  let u2 := if p.scheme.isEmpty then u1 else p.scheme ++ ':' :: u1
  if p.query.isEmpty then u2 else u2 ++ '?' :: p.query

/-! ## `utils.normalize` and `utils.get_urlhash` (src/utils/__init__.py) -/

/-- `str.rstrip("/")`: drop all trailing slashes. -/
def rstripSlash (cs : List Char) : List Char :=
  (cs.reverse.dropWhile (· = '/')).reverse

/-- `utils.normalize`: remove trailing slashes when the URL ends in `/`. -/
def normalize (url : String) : String :=
  if url.toList.getLast? = some '/' then String.mk (rstripSlash url.toList)
  else url

/-- The string hashed by `get_urlhash`:
`f"{parsed.netloc}/{parsed.path}/{parsed.params}/{parsed.query}"`. -/
def urlKeyString (url : String) : List Char :=
  let p := urlparse url
  p.netloc ++ '/' :: p.path ++ '/' :: p.params ++ '/' :: p.query

/-- `utils.get_urlhash`: SHA-256 (hex) of the scheme-free key string. -/
def get_urlhash (url : String) : String :=
  sha256Hex (String.mk (urlKeyString url))

example : urlparse "http://a.com/p;par?q=1#frag" =
    ⟨"http".toList, "a.com".toList, "/p".toList, "par".toList,
     "q=1".toList, "frag".toList⟩ := by decide

example : urlparse "a.com/x" =
    ⟨[], [], "a.com/x".toList, [], [], []⟩ := by decide

example : urlparse "ws://a.com/p;x" =
    ⟨"ws".toList, "a.com".toList, "/p;x".toList, [], [], []⟩ := by decide

example : urlparse "http://a.com/p;x" =
    ⟨"http".toList, "a.com".toList, "/p".toList, "x".toList, [], []⟩ := by
  decide

example : hostnameOf "USER@A.com:8080".toList = "a.com".toList := by decide

example : get_urlhash "http://a.com/x" =
    "b43cf65b20198749c25e8f6417c5e83d25ba1d69dd10052c6ab0dee6929330d6" := by
  decide

example : get_urlhash "http://a.com/p;par?q=1#frag" =
    "fd3cb3016df83288f56f4bcba9d61809a95a904c2e46734f04891f01ce696033" := by
  decide

example : String.mk (geturlNoFragCL (urlparse "http://a.com/p;par?q=1#frag")) =
    "http://a.com/p;par?q=1" := by decide

example : normalize "http://a.com/x/" = "http://a.com/x" := by decide

/-! ## Python container helpers

Association lists with CPython `dict` semantics (assignment replaces in
place, new keys append; iteration in insertion order) and `set` semantics
(idempotent insertion). -/

/-- `d[k]` / `d.get(k)`. -/
def alookup [DecidableEq K] : List (K × V) → K → Option V
  | [], _ => none
  | (k', v) :: m, k => if k = k' then some v else alookup m k

/-- `d[k] = v`. -/
def ainsert [DecidableEq K] : List (K × V) → K → V → List (K × V)
  | [], k, v => [(k, v)]
  | (k', v') :: m, k, v =>
      if k = k' then (k', v) :: m else (k', v') :: ainsert m k v

/-- `s.add(a)` for a Python `set`. -/
def sinsert [DecidableEq A] (l : List A) (a : A) : List A :=
  if a ∈ l then l else l ++ [a]

/-- `defaultdict(Queue)[k].put(v)`. -/
def qput [DecidableEq K] : List (K × List V) → K → V → List (K × List V)
  | [], k, v => [(k, [v])]
  | (k', q) :: m, k, v =>
      if k = k' then (k', q ++ [v]) :: m else (k', q) :: qput m k v

/-- Python `str.strip()` whitespace. -/
def isPySpace (c : Char) : Bool :=
  c = ' ' || c = '\t' || c = '\n' || c = '\x0d' || c = '\x0b' || c = '\x0c'

/-- `str.strip()`. -/
def pyStrip (cs : List Char) : List Char :=
  ((cs.dropWhile isPySpace).reverse.dropWhile isPySpace).reverse

/-- Helper for `splitOnChar`. -/
def splitOnCharAux (c : Char) : List Char → List Char → List (List Char)
  | [], acc => [acc.reverse]
  | a :: l, acc =>
      if a = c then acc.reverse :: splitOnCharAux c l []
      else splitOnCharAux c l (a :: acc)

/-- `str.split(c)`. -/
def splitOnChar (c : Char) (cs : List Char) : List (List Char) :=
  splitOnCharAux c cs []

/-- `content.replace('\r\n', '\n')`. -/
def crlfToLf : List Char → List Char
  | '\x0d' :: '\n' :: l => '\n' :: crlfToLf l
  | a :: l => a :: crlfToLf l
  | [] => []

/-! ## `crawler.robot_parser.CustomRobotsParser` -/

/-- The parser's mutable attributes (src/crawler/robot_parser.py). -/
structure CustomRobotsParser where
  user_agent : List Char
  allowed : List (List Char)
  disallowed : List (List Char)
  sitemaps : List (List Char)
  current_user_agent : Option (List Char)
  deriving DecidableEq, Repr

/-- `CustomRobotsParser.__init__`. -/
def CustomRobotsParser.init (ua : List Char) : CustomRobotsParser :=
  ⟨ua, [], [], [], none⟩

/-- One iteration of the `parse` loop: strip comment and whitespace, split
on the first `:`, dispatch on the lower-cased directive. -/
def parseRobotsLine (p : CustomRobotsParser) (line : List Char) :
    CustomRobotsParser :=
  let line := pyStrip (match breakChar '#' line with
    | some (a, _) => a
    | none => line)
  if line.isEmpty then p
  else match breakChar ':' line with
  | none => p
  | some (d, v) =>
      let directive := (pyStrip d).map Char.toLower
      let value := pyStrip v
      if directive = "user-agent".toList then
        { p with current_user_agent := some value }
      else if directive = "sitemap".toList then
        { p with sitemaps := p.sitemaps ++ [value] }
      else if p.current_user_agent = some p.user_agent ∨
              p.current_user_agent = some ['*'] then
        if directive = "allow".toList then
          if !value.isEmpty then { p with allowed := p.allowed ++ [value] }
          else p
        else if directive = "disallow".toList then
          if !value.isEmpty then
            { p with disallowed := p.disallowed ++ [value] }
          else p
        else p
      else p

/-- `CustomRobotsParser.parse`. -/
def CustomRobotsParser.parse (p : CustomRobotsParser) (content : List Char) :
    CustomRobotsParser :=
  (splitOnChar '\n' content).foldl parseRobotsLine p

/-- Inner loop of `can_fetch`: the first disallowed prefix matching the
path decides, rescued by any matching allowed prefix. -/
def canFetchAux (allowed : List (List Char)) (path : List Char) :
    List (List Char) → Bool
  | [] => true
  | d :: rest =>
      if List.isPrefixOf d path then
        allowed.any (fun a => List.isPrefixOf a path)
      else canFetchAux allowed path rest

/-- `CustomRobotsParser.can_fetch`. -/
def CustomRobotsParser.can_fetch (p : CustomRobotsParser)
    (path : List Char) : Bool :=
  canFetchAux p.allowed path p.disallowed

/-- `CustomRobotsParser.get_sitemaps`. -/
def CustomRobotsParser.get_sitemaps (p : CustomRobotsParser) :
    List (List Char) := p.sitemaps

example :
    ((CustomRobotsParser.init "crawler".toList).parse
      "User-agent: *\nDisallow: /private # comment\nSitemap: http://d/sm.xml".toList) =
    ⟨"crawler".toList, [], ["/private".toList], ["http://d/sm.xml".toList],
     some ['*']⟩ := by decide

example :
    (CustomRobotsParser.can_fetch
      ⟨"c".toList, [], ["/private".toList], [], some ['*']⟩
      "/private/p1".toList) = false := by decide

example :
    (CustomRobotsParser.can_fetch (CustomRobotsParser.init "c".toList)
      "/anything".toList) = true := by decide

/-! ## `scraper.is_valid` (src/scraper.py lines 78-125)

The current source keeps the call `is_infinite_trap(url)` (line 110) but
the definition of `is_infinite_trap` is commented out (lines 128-169), so
reaching that line raises `NameError`, which the surrounding
`except TypeError` does not catch. -/

/-- The single allowed-domain pattern
`https?://poewiki\.net/wiki/[a-zA-Z0-9_\-./;?%&=+#]*?` used with
`re.match`: anchored at the start and ending in a lazy star that can match
the empty string, it holds exactly when the URL starts with
`http://poewiki.net/wiki/` or `https://poewiki.net/wiki/`. -/
def matchesAllowedDomain (url : String) : Bool :=
  List.isPrefixOf "http://poewiki.net/wiki/".toList url.toList ||
  List.isPrefixOf "https://poewiki.net/wiki/".toList url.toList

/-- The extension blacklist regex of lines 116-122
(`.*\.(css|js|...)$` on the lower-cased URL): a suffix test against the
expanded alternation.  In the current source this line is unreachable. -/
def hasDisallowedExtension (url : String) : Bool :=
  let low := url.toList.map Char.toLower
  ["css", "js", "bmp", "gif", "jpg", "jpeg", "ico", "png", "tif", "tiff",
   "mid", "mp2", "mp3", "mp4", "wav", "avi", "mov", "mpeg", "ram", "m4v",
   "mkv", "ogg", "ogv", "pdf", "ps", "eps", "tex", "ppt", "pptx", "doc",
   "docx", "xls", "xlsx", "names", "data", "dat", "exe", "bz2", "tar",
   "msi", "bin", "7z", "psd", "dmg", "iso", "epub", "dll", "cnf", "tgz",
   "sha1", "thmx", "mso", "arff", "rtf", "jar", "csv", "rm", "smil",
   "wmv", "swf", "wma", "zip", "rar", "gz"].any
    (fun e => List.isSuffixOf ('.' :: e.toList) low)

/-- Line 102 of src/scraper.py: `if not parsed.scheme or not parsed.hostname`
(the `._replace(fragment='')` on line 101 does not affect these fields). -/
def missingSchemeOrHost (url : String) : Bool :=
  (urlparse url).scheme.isEmpty || (hostnameOf (urlparse url).netloc).isEmpty

/-- `scraper.is_valid`. -/
def is_valid (url : String) : Except PyErr Bool :=
  if missingSchemeOrHost url then
    .ok false
  else if !matchesAllowedDomain url then
    .ok false
  else
    -- line 110: `is_trap, trap_type = is_infinite_trap(url)` raises
    -- NameError; the extension check (`hasDisallowedExtension`) and the
    -- `return` of line 116 are unreachable.
    .error .nameError

/-- `is_valid` never returns `True` in the current source: every URL either
fails an early filter (`False`) or reaches the undefined name
`is_infinite_trap`. -/
theorem is_valid_never_true (url : String) :
    is_valid url = .ok false ∨ is_valid url = .error .nameError := by
  unfold is_valid
  split
  · exact Or.inl rfl
  · split
    · exact Or.inl rfl
    · exact Or.inr rfl

example : is_valid "https://poewiki.net/wiki/Landing" = .error .nameError := by
  decide

example : is_valid "http://www.ics.uci.edu/x" = .ok false := by decide

example : is_valid "nourl" = .ok false := by decide

/-! ## Frontier state (src/crawler/frontier.py)

The attributes of `Frontier` that `add_url`, `get_tbd_url` and
`mark_url_complete` read or write.  The shelve `save` maps URL-hash to
`(url, depth, completed)`; `domains_to_scrape` is the `defaultdict(Queue)`
of per-host FIFOs; the remaining fields mirror the per-host bookkeeping
dictionaries.  All operations run under the frontier's reentrant locks, so
the methods are embedded as sequential state transformers. -/

structure St where
  save : List (String × (String × Nat × Bool))
  domains_to_scrape : List (String × List (String × Nat))
  last_request_time : List (String × Int)
  robots_parsers : List (String × CustomRobotsParser)
  subdomains : List (String × List String)
  sitemaps : List (String × List String)
  deriving DecidableEq, Repr

/-- The frontier state right after `handle_shelves(restart=True)` with an
empty seed list. -/
def St.empty : St := ⟨[], [], [], [], [], []⟩

/-- `resp.raw_response` as the robots/sitemap downloader sees it. -/
structure RawResp where
  contentType : String
  content : String
  deriving DecidableEq, Repr

/-- Outcome of `utils.download.download` (external collaborator): an
exception, or a response with a status and optional raw body. -/
inductive Fetch where
  | exc
  | resp (status : Int) (raw : Option RawResp)
  deriving DecidableEq, Repr

/-- A parsed sitemap document as `lxml.etree` presents it to
`get_urls_from_sitemap`: the `<sitemap><loc>` texts and the `<url><loc>`
texts (in document order, `none` for a child without `<loc>`). -/
structure SitemapDoc where
  sitemapLocs : List (Option String)
  urlLocs : List (Option String)
  deriving DecidableEq, Repr

/-- The environment of one crawl: configuration plus the network/clock
oracles.  `sitemapDoc u = none` covers a download exception, a non-200
status and an XML parse error, which all make `get_urls_from_sitemap`
return `[]`. -/
structure Env where
  user_agent : String
  robotsFetch : String → Fetch
  fetchTime : String → Int
  sitemapDoc : String → Option SitemapDoc

/-- `Frontier.download_robots_txt_parser_for_domain`.  Note two source
facts: the method first writes a completed `(robots_url, 1, True)` record
for the robots.txt URL into the shelve when absent, and the politeness
wait reads `self.config.politeness_delay`, an attribute `Config` does not
define (it has `time_delay`), so the method raises `AttributeError`
whenever the domain already has a `last_request_time` entry. -/
def download_robots_txt_parser_for_domain (env : Env) (domain : String)
    (s : St) : Except PyErr (CustomRobotsParser × St) :=
  let robots_url := "https://" ++ domain ++ "/robots.txt"
  let urlhash := get_urlhash robots_url
  let s1 := if (alookup s.save urlhash).isSome then s
    else { s with save := ainsert s.save urlhash (robots_url, 1, true) }
  if (alookup s1.last_request_time domain).isSome then
    .error .attributeError
  else
    let lrt2 := ainsert s1.last_request_time domain (env.fetchTime domain)
    let s2 := { s1 with last_request_time := lrt2 }
    match env.robotsFetch domain with
    | .exc => .ok (CustomRobotsParser.init env.user_agent.toList, s2)
    | .resp status raw =>
        match raw with
        | some r =>
            if status = 200 ∧
                List.isPrefixOf "text/plain".toList r.contentType.toList then
              .ok ((CustomRobotsParser.init env.user_agent.toList).parse
                     (crlfToLf r.content.toList), s2)
            else .ok (CustomRobotsParser.init env.user_agent.toList, s2)
        | none => .ok (CustomRobotsParser.init env.user_agent.toList, s2)

/-- `Frontier.get_robots_txt_parser` (named for its argument here because
of a local naming restriction): return the cached parser for the URL's
domain, downloading and caching it on first contact. -/
def get_robots_txt_parser_for_url (env : Env) (url : String) (s : St) :
    Except PyErr (CustomRobotsParser × St) :=
  let url := normalize url
  let domain := String.mk (urlparse url).netloc
  match alookup s.robots_parsers domain with
  | some p => .ok (p, s)
  | none =>
      match download_robots_txt_parser_for_domain env domain s with
      | .error e => .error e
      | .ok (p, s1) =>
          .ok (p, { s1 with robots_parsers := ainsert s1.robots_parsers domain p })

/-- `Frontier.get_urls_from_sitemap`, defunctionalized over a worklist of
sitemap URLs: a failed fetch/parse contributes `[]`; a sitemap index
recurses into its `<sitemap><loc>` children (prepended to the rest, which
preserves the source's depth-first output order); a plain urlset
contributes its `<url><loc>` texts.  Fuel bounds the recursion depth; in
Python an unbounded sitemap-index chain would exhaust the stack. -/
def sitemapUrlsGo : Nat → Env → List String → Except PyErr (List String)
  | 0, _, _ => .error .recursionError
  | _, _, [] => .ok []
  | fuel + 1, env, u :: rest =>
      match (match env.sitemapDoc u with
        | none => .ok []
        | some doc =>
            if !doc.sitemapLocs.isEmpty then
              sitemapUrlsGo fuel env (doc.sitemapLocs.filterMap id)
            else .ok (doc.urlLocs.filterMap id) : Except PyErr (List String)) with
      | .error e => .error e
      | .ok here =>
          match sitemapUrlsGo fuel env rest with
          | .error e => .error e
          | .ok there => .ok (here ++ there)

/-- `Frontier.get_urls_from_sitemap` on a single sitemap URL. -/
def get_urls_from_sitemap (fuel : Nat) (env : Env) (u : String) :
    Except PyErr (List String) :=
  sitemapUrlsGo fuel env [u]

/-- The mutually recursive frontier entry points, defunctionalized so that
the recursion is structural on fuel (and hence computes in the kernel):
`addUrl` is `Frontier.add_url`; `sitemapsLoop` is the loop of
`Frontier.process_sitemaps`; `urlsLoop` is its inner
`for url in urls_from_sitemap` loop. -/
inductive Task where
  | addUrl (url : String) (depth : Nat)
  | sitemapsLoop (sitemap_urls : List String)
  | urlsLoop (urls : List String)

/-- One fueled interpreter for the three mutually recursive bodies.
`run (fuel+1) env (.addUrl url depth) s` is `Frontier.add_url(url, depth)`
in state `s`: normalize, parse, hash the fragment-free URL; stop if the
hash is known; on a new domain fetch robots and ingest its sitemaps
(`get_sitemap_urls_from_robots_txt` re-reads the just-cached parser);
record the subdomain; stop without storing if robots denies the path;
otherwise store `(url, depth, False)` and enqueue. -/
def run : Nat → Env → Task → St → Except PyErr St
  | 0, _, _, _ => .error .recursionError
  | fuel + 1, env, .addUrl url depth, s =>
      let url := normalize url
      let parsed := urlparse url
      let domain := String.mk parsed.netloc
      let fragmentless := String.mk (geturlNoFragCL parsed)
      let urlhash := get_urlhash fragmentless
      if (alookup s.save urlhash).isSome then .ok s
      else
        match (match alookup s.robots_parsers domain with
          | none =>
              match get_robots_txt_parser_for_url env url s with
              | .error e => .error e
              | .ok (p, s1) =>
                  match run fuel env (.sitemapsLoop (p.get_sitemaps.map String.mk)) s1 with
                  | .error e => .error e
                  | .ok s2 => .ok (p, s2)
          | some p => .ok (p, s) :
            Except PyErr (CustomRobotsParser × St)) with
        | .error e => .error e
        | .ok (ps : CustomRobotsParser × St) =>
            let parser := ps.1
            let s1 := ps.2
            let hostname := String.mk (hostnameOf parsed.netloc)
            let subs := (alookup s1.subdomains hostname).getD []
            let subs2 := ainsert s1.subdomains hostname (sinsert subs fragmentless)
            let s2 := { s1 with subdomains := subs2 }
            if !parser.can_fetch parsed.path then .ok s2
            else
              .ok { s2 with
                save := ainsert s2.save urlhash (fragmentless, depth, false),
                domains_to_scrape :=
                  qput s2.domains_to_scrape domain (fragmentless, depth) }
  | _ + 1, _, .sitemapsLoop [], s => .ok s
  | fuel + 1, env, .sitemapsLoop (u :: rest), s =>
      let su := normalize u
      let dom := String.mk (urlparse su).netloc
      let step : Except PyErr St := match alookup s.sitemaps dom with
        | some cur =>
            if su ∈ cur then .ok s
            else
              match get_urls_from_sitemap fuel env su with
              | .error e => .error e
              | .ok urls =>
                  run fuel env (.urlsLoop urls)
                    { s with sitemaps := ainsert s.sitemaps dom (cur ++ [su]) }
        | none =>
            match get_urls_from_sitemap fuel env su with
            | .error e => .error e
            | .ok urls =>
                run fuel env (.urlsLoop urls)
                  { s with sitemaps := ainsert s.sitemaps dom [su] }
      match step with
      | .error e => .error e
      | .ok s1 => run fuel env (.sitemapsLoop rest) s1
  | _ + 1, _, .urlsLoop [], s => .ok s
  | fuel + 1, env, .urlsLoop (u :: rest), s =>
      match is_valid u with
      | .error e => .error e
      | .ok true =>
          match run fuel env (.addUrl u 1) s with
          | .error e => .error e
          | .ok s1 => run fuel env (.urlsLoop rest) s1
      | .ok false => run fuel env (.urlsLoop rest) s

/-- `Frontier.add_url`. -/
def add_url (fuel : Nat) (env : Env) (url : String) (depth : Nat) (s : St) :
    Except PyErr St :=
  run fuel env (.addUrl url depth) s

/-- `Frontier.mark_url_complete`: log-only when the hash is unknown, then
unconditionally store `(url, depth, True)` under the hash and sync. -/
def mark_url_complete (s : St) (url : String) (depth : Nat) : St :=
  { s with save := ainsert s.save (get_urlhash url) (url, depth, true) }

/-- Number of entries across all host queues whose URL has the given
URL-hash. -/
def qcountHash (s : St) (h : String) : Nat :=
  (s.domains_to_scrape.flatMap Prod.snd).countP
    (fun e => get_urlhash e.1 == h)

/-- A concrete environment used in several scenarios below: the domain
`c.ics.uci.edu` serves a robots.txt that disallows `/private`; every other
download raises; no sitemaps exist anywhere. -/
def envC : Env where
  user_agent := "crawler"
  robotsFetch := fun d =>
    if d = "c.ics.uci.edu" then
      .resp 200 (some ⟨"text/plain", "User-agent: *\nDisallow: /private"⟩)
    else .exc
  fetchTime := fun _ => 100
  sitemapDoc := fun _ => none

example :
    add_url 5 envC "http://c.ics.uci.edu/private/p1" 1 St.empty =
    .ok { save := [(get_urlhash "https://c.ics.uci.edu/robots.txt",
                    ("https://c.ics.uci.edu/robots.txt", 1, true))],
          domains_to_scrape := [],
          last_request_time := [("c.ics.uci.edu", 100)],
          robots_parsers := [("c.ics.uci.edu",
            ⟨"crawler".toList, [], ["/private".toList], [], some ['*']⟩)],
          subdomains := [("c.ics.uci.edu", ["http://c.ics.uci.edu/private/p1"])],
          sitemaps := [] } := by
  decide

example :
    add_url 5 envC "http://c.ics.uci.edu/ok/page" 2 St.empty =
    .ok { save := [(get_urlhash "https://c.ics.uci.edu/robots.txt",
                    ("https://c.ics.uci.edu/robots.txt", 1, true)),
                   (get_urlhash "http://c.ics.uci.edu/ok/page",
                    ("http://c.ics.uci.edu/ok/page", 2, false))],
          domains_to_scrape := [("c.ics.uci.edu",
            [("http://c.ics.uci.edu/ok/page", 2)])],
          last_request_time := [("c.ics.uci.edu", 100)],
          robots_parsers := [("c.ics.uci.edu",
            ⟨"crawler".toList, [], ["/private".toList], [], some ['*']⟩)],
          subdomains := [("c.ics.uci.edu", ["http://c.ics.uci.edu/ok/page"])],
          sitemaps := [] } := by
  decide

/-! ## Association-list lemmas -/

theorem alookup_ainsert [DecidableEq K] (m : List (K × V)) (k k' : K) (v : V) :
    alookup (ainsert m k v) k' = if k' = k then some v else alookup m k' := by
  induction m with
  | nil => simp [ainsert, alookup]
  | cons p m ih =>
      obtain ⟨k0, v0⟩ := p
      by_cases h : k = k0
      · subst h
        by_cases h' : k' = k <;> simp [ainsert, alookup, h']
      · by_cases h' : k' = k0
        · subst h'
          simp [ainsert, alookup, h, Ne.symm h]
        · simp [ainsert, alookup, h, h', ih]

theorem ainsert_self [DecidableEq K] (m : List (K × V)) (k : K) (v : V)
    (h : alookup m k = some v) : ainsert m k v = m := by
  induction m with
  | nil => simp [alookup] at h
  | cons p m ih =>
      obtain ⟨k0, v0⟩ := p
      by_cases hk : k = k0
      · subst hk
        simp [alookup] at h
        simp [ainsert, h]
      · simp [alookup, Ne.symm hk, hk] at h ⊢
        simp [ainsert, hk, ih h]

theorem sinsert_mem [DecidableEq A] (l : List A) (a : A) (h : a ∈ l) :
    sinsert l a = l := by
  simp [sinsert, h]

theorem sinsert_mem_self [DecidableEq A] (l : List A) (a : A) :
    a ∈ sinsert l a := by
  by_cases h : a ∈ l <;> simp [sinsert, h]

/-- `qput` adds exactly one entry (at the back of the key's queue). -/
theorem qput_flatten [DecidableEq K] (m : List (K × List V)) (k : K) (v : V)
    (p : V → Bool) :
    ((qput m k v).flatMap Prod.snd).countP p =
      (m.flatMap Prod.snd).countP p + (if p v then 1 else 0) := by
  induction m with
  | nil => simp [qput, List.countP_cons]
  | cons q m ih =>
      obtain ⟨k0, q0⟩ := q
      by_cases h : k = k0
      · subst h
        simp [qput, List.countP_append, List.countP_cons]
        omega
      · simp [qput, h, List.countP_append, ih]
        omega

/-! ## Claim theorems C10 and C4 -/

/-- Claim C10: `Frontier.mark_url_complete(url, depth)` is total (the only
fallible step, the shelve write, is outside the model's failure modes) and
unconditionally sets the discovery-index entry for `hash(url)` to
`(url, depth, completed=True)`: a fresh completed record is inserted when
the hash was never added (after an error log), and the stored url and
depth are overwritten with the arguments when it was.  All other entries
and the host queues are untouched. -/
theorem mark_url_complete_spec (s : St) (url : String) (depth : Nat)
    (k : String) :
    alookup (mark_url_complete s url depth).save k =
      (if k = get_urlhash url then some (url, depth, true)
       else alookup s.save k) ∧
    (mark_url_complete s url depth).domains_to_scrape =
      s.domains_to_scrape :=
  ⟨alookup_ainsert s.save (get_urlhash url) k (url, depth, true), rfl⟩

/-- Claim C4 (code bug): `scraper.is_valid` does not always return a
boolean.  Any URL that reaches line 110 hits the undefined name
`is_infinite_trap` (its definition is commented out) and raises
`NameError`, which `except TypeError` does not catch; e.g. the in-scope
URL `https://poewiki.net/wiki/Landing`.  Every other URL returns `False`,
so `is_valid` never returns `True` at all. -/
theorem is_valid_raises_nameError :
    is_valid "https://poewiki.net/wiki/Landing" = .error .nameError ∧
    ∀ url : String,
      is_valid url = .ok false ∨ is_valid url = .error .nameError :=
  ⟨by decide, is_valid_never_true⟩

/-! ## `crawler.simhash.SimHash` and claim C8 -/

/-- Python `h & (1 << i) != 0` for an arbitrary-width integer `h`, i.e.
bit `i` of the two's-complement representation (floor division and
euclidean remainder agree with Python's semantics on negatives). -/
def pyBitTest (h : Int) (i : Nat) : Bool :=
  (Int.fdiv h (2 ^ i)).emod 2 == 1

/-- The inner `for i in range(num_bits)` loop of `SimHash.simhash`: add
the token's weight to `weights[i]` when bit `i` of the token's hash is
set, subtract it otherwise. -/
def addTokenWeights (h : Int) (w : Nat) : List Int → Nat → List Int
  | [], _ => []
  | x :: ws, i =>
      (if pyBitTest h i then x + (w : Int) else x - (w : Int)) ::
        addTokenWeights h w ws (i + 1)

/-- The final fingerprint loop: `fingerprint += 1 << i` when
`weights[i] >= 0`. -/
def fingerprintOf : List Int → Nat → Nat
  | [], _ => 0
  | x :: ws, i => (if 0 ≤ x then 2 ^ i else 0) + fingerprintOf ws (i + 1)

/-- `SimHash.simhash` (src/crawler/simhash.py lines 9-33), parameterized
by the ambient token-hash function: the source calls Python's builtin
`hash(t)`, which is not defined in this repository. -/
def simhash (tokenHash : String → Int) (num_bits : Nat)
    (counter : List (String × Nat)) : Nat :=
  let weights := counter.foldl
    (fun ws tw => addTokenWeights (tokenHash tw.1) tw.2 ws 0)
    (List.replicate num_bits 0)
  fingerprintOf weights 0

/-- `bin(x).count('1')` for the 64-bit values produced by `simhash`. -/
def bitCount64 (n : Nat) : Nat :=
  (List.range 64).countP (fun i => n.testBit i)

/-- `SimHash.similarity`: the fraction of matching bits. -/
def similarity (a b : Nat) : ℚ :=
  ((64 : ℚ) - bitCount64 ((a ^^^ b) &&& (2 ^ 64 - 1))) / 64

/-- Modelled from the spec: Python's builtin `hash` on `str` (the function
`SimHash.simhash` actually calls) is salted by a per-process secret
(`PYTHONHASHSEED`) — the spec calls it "a randomized per-process hash".
Only its dependence on both the seed and the token's UTF-8 bytes matters
here, so the salting is modelled as xoring the process seed into a
byte-sum; a given process run corresponds to one fixed seed. -/
def pyStrHash (seed : Nat) (t : String) : Int :=
  Int.ofNat ((seed ^^^ (strUtf8 t).foldl (fun a b => a * 31 + b) 0) % 2 ^ 64)

/-- Claim C8 (code bug): the token hash used by the SimHash fingerprint is
not deterministic across process runs.  `SimHash.simhash` hashes tokens
with Python's salted builtin `hash`, so two runs with different process
seeds compute different hashes for the same token and hence different
fingerprints for the same token counter — here the counter `{"a": 1}`
under seeds 0 and 1. -/
theorem simhash_not_run_deterministic :
    pyStrHash 0 "a" ≠ pyStrHash 1 "a" ∧
    simhash (pyStrHash 0) 64 [("a", 1)] ≠
      simhash (pyStrHash 1) 64 [("a", 1)] := by
  constructor <;> decide

/-! ## Claim C6: failed robots fetches yield the empty policy -/

/-- The success condition of `download_robots_txt_parser_for_domain`
(frontier.py line 298): HTTP 200, a raw response present, and a
`Content-Type` starting with `text/plain`.  Anything else — including a
download exception — produces the empty parser. -/
def goodRobotsResp : Fetch → Bool
  | .resp status (some r) =>
      status == 200 && List.isPrefixOf "text/plain".toList r.contentType.toList
  | _ => false

/-- Claim C6: a robots.txt fetch that is not HTTP 200 / not `text/plain` /
a network error produces the empty policy: no allow-prefixes, no
disallow-prefixes, no sitemaps, and `can_fetch` true on every path.  (The
hypothesis on `last_request_time` keeps the call clear of the
`AttributeError` in the politeness wait, which precedes any fetch.) -/
theorem robots_failure_empty_policy (env : Env) (domain : String) (s : St)
    (hl : alookup s.last_request_time domain = none)
    (hbad : goodRobotsResp (env.robotsFetch domain) = false) :
    (download_robots_txt_parser_for_domain env domain s).toOption.map
        Prod.fst = some (CustomRobotsParser.init env.user_agent.toList) ∧
    (CustomRobotsParser.init env.user_agent.toList).allowed = [] ∧
    (CustomRobotsParser.init env.user_agent.toList).disallowed = [] ∧
    (CustomRobotsParser.init env.user_agent.toList).sitemaps = [] ∧
    ∀ path, (CustomRobotsParser.init env.user_agent.toList).can_fetch path
      = true := by
  refine ⟨?_, rfl, rfl, rfl, fun _ => rfl⟩
  by_cases hsv :
      (alookup s.save
        (get_urlhash ("https://" ++ domain ++ "/robots.txt"))).isSome = true <;>
  · cases hf : env.robotsFetch domain with
    | exc =>
        simp [download_robots_txt_parser_for_domain, hl, hsv, hf]
        exact ⟨_, rfl⟩
    | resp status raw =>
        cases raw with
        | none =>
            simp [download_robots_txt_parser_for_domain, hl, hsv, hf]
            exact ⟨_, rfl⟩
        | some r =>
            rw [hf] at hbad
            simp only [goodRobotsResp] at hbad
            simp [download_robots_txt_parser_for_domain, hl, hsv, hf]
            rw [if_neg ?_]
            · exact ⟨_, rfl⟩
            · rintro ⟨h1, h2⟩
              subst h1
              rw [← List.isPrefixOf_iff_prefix] at h2
              simp [h2] at hbad

/-- Concrete instance of claim C6: the domain `x.edu`, whose robots fetch
raises in `envC`, gets the empty all-allowing policy. -/
theorem robots_failure_empty_policy_witness :
    (download_robots_txt_parser_for_domain envC "x.edu" St.empty).toOption.map
        Prod.fst = some (CustomRobotsParser.init envC.user_agent.toList) ∧
    (CustomRobotsParser.init envC.user_agent.toList).allowed = [] ∧
    (CustomRobotsParser.init envC.user_agent.toList).disallowed = [] ∧
    (CustomRobotsParser.init envC.user_agent.toList).sitemaps = [] ∧
    ∀ path, (CustomRobotsParser.init envC.user_agent.toList).can_fetch path
      = true :=
  robots_failure_empty_policy envC "x.edu" St.empty rfl (by decide)

/-! ## Claim C7: adds denied by robots -/

/-- Claim C7 counterexample: `add_url("http://c.ics.uci.edu/private/p1")`
on a fresh frontier, with `c.ics.uci.edu` serving `Disallow: /private`
(environment `envC`).  The URL itself is not indexed and nothing is
enqueued, but the discovery index does **not** stay unchanged: first
contact with the host writes the completed bookkeeping record for
`https://c.ics.uci.edu/robots.txt` into it
(`download_robots_txt_parser_for_domain`, frontier.py lines 278-281). -/
theorem add_denied_writes_robots_record :
    ∃ s1, add_url 5 envC "http://c.ics.uci.edu/private/p1" 1 St.empty =
        .ok s1 ∧
      s1.domains_to_scrape = [] ∧
      alookup s1.save (get_urlhash "http://c.ics.uci.edu/private/p1") =
        none ∧
      s1.save ≠ St.empty.save :=
  ⟨{ save := [(get_urlhash "https://c.ics.uci.edu/robots.txt",
               ("https://c.ics.uci.edu/robots.txt", 1, true))],
     domains_to_scrape := [],
     last_request_time := [("c.ics.uci.edu", 100)],
     robots_parsers := [("c.ics.uci.edu",
       ⟨"crawler".toList, [], ["/private".toList], [], some ['*']⟩)],
     subdomains := [("c.ics.uci.edu", ["http://c.ics.uci.edu/private/p1"])],
     sitemaps := [] },
   by decide, rfl, by decide, by decide⟩

/-- Claim C7 as amended: when the host's robots policy is already cached
and denies the URL's path, `add_url` returns leaving the discovery index
entirely unchanged and enqueueing nothing (only the auxiliary subdomain
set changes); on first contact the index additionally gains the host's
robots.txt bookkeeping entry but still no entry for the denied URL and no
queue entry (see the counterexample). -/
theorem add_denied_cached_preserves (fuel : Nat) (env : Env) (url : String)
    (depth : Nat) (s : St) (p : CustomRobotsParser)
    (hp : alookup s.robots_parsers
      (String.mk (urlparse (normalize url)).netloc) = some p)
    (hd : p.can_fetch (urlparse (normalize url)).path = false) :
    ∃ s', add_url (fuel + 1) env url depth s = .ok s' ∧
      s'.save = s.save ∧ s'.domains_to_scrape = s.domains_to_scrape := by
  by_cases hsv : (alookup s.save
      (get_urlhash (String.mk (geturlNoFragCL (urlparse (normalize url)))))).isSome = true
  · exact ⟨s, by simp [add_url, run, hsv], rfl, rfl⟩
  · have hw : add_url (fuel + 1) env url depth s = .ok { s with subdomains := ainsert s.subdomains (String.mk (hostnameOf (urlparse (normalize url)).netloc)) (sinsert ((alookup s.subdomains (String.mk (hostnameOf (urlparse (normalize url)).netloc))).getD []) (String.mk (geturlNoFragCL (urlparse (normalize url))))) } := by
      simp [add_url, run, hsv, hp, hd]
    exact ⟨_, hw, rfl, rfl⟩

/-- Concrete instance of the amended claim C7: with the denying policy for
`c.ics.uci.edu` already cached, adding the denied URL leaves the discovery
index and the queues unchanged. -/
theorem add_denied_cached_preserves_witness :
    ∃ s', add_url 5 envC "http://c.ics.uci.edu/private/p1" 1
        { St.empty with robots_parsers := [("c.ics.uci.edu",
          ⟨"crawler".toList, [], ["/private".toList], [], some ['*']⟩)] } =
        .ok s' ∧
      s'.save = [] ∧ s'.domains_to_scrape = [] :=
  add_denied_cached_preserves 4 envC "http://c.ics.uci.edu/private/p1" 1
    { St.empty with robots_parsers := [("c.ics.uci.edu",
      ⟨"crawler".toList, [], ["/private".toList], [], some ['*']⟩)] }
    ⟨"crawler".toList, [], ["/private".toList], [], some ['*']⟩
    (by decide) (by decide)

/-! ## Support lemmas for claim C3 -/

/-- The URL actually stored and enqueued by `add_url`:
`urlparse(normalize(url))._replace(fragment="").geturl()`. -/
def fragmentlessOf (u : String) : String :=
  String.mk (geturlNoFragCL (urlparse (normalize u)))

/-- The discovery-index key `add_url` computes for a URL. -/
def urlhashOf (u : String) : String := get_urlhash (fragmentlessOf u)

/-- The host-queue key `add_url` computes for a URL. -/
def domainOf (u : String) : String :=
  String.mk (urlparse (normalize u)).netloc

/-- The subdomain key (`parsed_url.hostname`) `add_url` computes. -/
def hostOf (u : String) : String :=
  String.mk (hostnameOf (urlparse (normalize u)).netloc)

theorem head_dropWhile_false (p : Char → Bool) :
    ∀ (l : List Char) (a : Char), (l.dropWhile p).head? = some a →
      p a = false := by
  intro l
  induction l with
  | nil => intro a h; simp [List.dropWhile] at h
  | cons x l ih =>
      intro a h
      by_cases hx : p x
      · rw [List.dropWhile_cons_of_pos hx] at h
        exact ih a h
      · rw [List.dropWhile_cons_of_neg hx] at h
        simp at h
        subst h
        simpa using hx

/-- `normalize` output never ends in a slash unless it is unchanged input
without one; in particular `normalize` is idempotent. -/
theorem normalize_idem (u : String) : normalize (normalize u) = normalize u := by
  unfold normalize
  split
  next hend =>
    have hner : ∀ a, (String.mk (rstripSlash u.toList)).toList.getLast? = some a → a ≠ '/' := by
      intro a ha
      have : (u.toList.reverse.dropWhile (· = '/')).head? = some a := by
        simpa [rstripSlash, List.getLast?_reverse] using ha
      have := head_dropWhile_false (· = '/') _ a this
      simpa using this
    split
    next hend2 => exact absurd rfl (hner _ hend2)
    next => rfl
  next hend => simp [hend]

/-- The inner sitemap-URL loop never changes the frontier state: in the
current source every `is_valid` call either returns `False` or raises, so
the guarded recursive `add_url(url, 1)` is unreachable. -/
theorem urlsLoop_ok (env : Env) :
    ∀ (fuel : Nat) (l : List String) (s s' : St),
      run fuel env (.urlsLoop l) s = .ok s' → s' = s := by
  intro fuel
  induction fuel with
  | zero => intro l s s' h; simp [run] at h
  | succ fuel ih =>
      intro l s s' h
      cases l with
      | nil =>
          simp only [run] at h
          exact (Except.ok.injEq _ _).mp h |>.symm
      | cons u rest =>
          simp only [run] at h
          rcases is_valid_never_true u with hv | hv <;> rw [hv] at h
          · exact ih rest s s' h
          · simp at h

/-- `process_sitemaps` can only change the `sitemaps` visited-set field:
sitemap downloads are stateless reads and the inner loop is covered by
`urlsLoop_ok`. -/
theorem sitemapsLoop_fields (env : Env) :
    ∀ (fuel : Nat) (l : List String) (s s' : St),
      run fuel env (.sitemapsLoop l) s = .ok s' →
      s'.save = s.save ∧ s'.domains_to_scrape = s.domains_to_scrape ∧
      s'.last_request_time = s.last_request_time ∧
      s'.robots_parsers = s.robots_parsers ∧
      s'.subdomains = s.subdomains := by
  intro fuel
  induction fuel with
  | zero => intro l s s' h; simp [run] at h
  | succ fuel ih =>
      intro l s s' h
      cases l with
      | nil =>
          simp only [run] at h
          obtain rfl := (Except.ok.injEq _ _).mp h
          exact ⟨rfl, rfl, rfl, rfl, rfl⟩
      | cons u rest =>
          simp only [run] at h
          rcases hls : alookup s.sitemaps (String.mk (urlparse (normalize u)).netloc) with _ | cur
          · rw [hls] at h
            dsimp only at h
            rcases hg : get_urls_from_sitemap fuel env (normalize u) with e | urls <;> rw [hg] at h <;> dsimp only at h
            · simp at h
            · rcases hrun : run fuel env (.urlsLoop urls) { s with sitemaps := ainsert s.sitemaps (String.mk (urlparse (normalize u)).netloc) [normalize u] } with e | s1 <;> rw [hrun] at h <;> dsimp only at h
              · simp at h
              · obtain rfl := urlsLoop_ok env fuel urls _ s1 hrun
                have hres := ih rest _ s' h
                exact hres
          · rw [hls] at h
            dsimp only at h
            by_cases hmem : normalize u ∈ cur
            · rw [if_pos hmem] at h
              exact ih rest s s' h
            · rw [if_neg hmem] at h
              rcases hg : get_urls_from_sitemap fuel env (normalize u) with e | urls <;> rw [hg] at h <;> dsimp only at h
              · simp at h
              · rcases hrun : run fuel env (.urlsLoop urls) { s with sitemaps := ainsert s.sitemaps (String.mk (urlparse (normalize u)).netloc) (cur ++ [normalize u]) } with e | s1 <;> rw [hrun] at h <;> dsimp only at h
                · simp at h
                · obtain rfl := urlsLoop_ok env fuel urls _ s1 hrun
                  have hres := ih rest _ s' h
                  exact hres

/-- What a successful robots download can do to the frontier state: only
`last_request_time` for the domain and, possibly, a completed
`(robots_url, 1, True)` bookkeeping record in the discovery index. -/
theorem download_robots_fields (env : Env) (domain : String) (s : St)
    (p : CustomRobotsParser) (s1 : St)
    (h : download_robots_txt_parser_for_domain env domain s = .ok (p, s1)) :
    s1.domains_to_scrape = s.domains_to_scrape ∧
    s1.subdomains = s.subdomains ∧ s1.sitemaps = s.sitemaps ∧
    s1.robots_parsers = s.robots_parsers ∧
    (∀ k, alookup s1.save k = alookup s.save k ∨
      ∃ rurl, alookup s1.save k = some (rurl, 1, true)) := by
  have hsave : ∀ k, alookup
      (if (alookup s.save (get_urlhash ("https://" ++ domain ++ "/robots.txt"))).isSome = true
       then s
       else { s with save := ainsert s.save (get_urlhash ("https://" ++ domain ++ "/robots.txt")) ("https://" ++ domain ++ "/robots.txt", 1, true) }).save k =
      alookup s.save k ∨
      ∃ rurl : String, alookup
      (if (alookup s.save (get_urlhash ("https://" ++ domain ++ "/robots.txt"))).isSome = true
       then s
       else { s with save := ainsert s.save (get_urlhash ("https://" ++ domain ++ "/robots.txt")) ("https://" ++ domain ++ "/robots.txt", 1, true) }).save k =
      some (rurl, 1, true) := by
    intro k
    split
    · exact Or.inl rfl
    · by_cases hk : k = get_urlhash ("https://" ++ domain ++ "/robots.txt")
      · refine Or.inr ⟨"https://" ++ domain ++ "/robots.txt", ?_⟩
        simp [alookup_ainsert, hk]
      · left
        simp [alookup_ainsert, hk]
  unfold download_robots_txt_parser_for_domain at h
  by_cases hlrt : (alookup s.last_request_time domain).isSome = true
  · rw [if_pos (by split <;> exact hlrt)] at h
    simp at h
  · rw [if_neg (by split <;> exact hlrt)] at h
    rcases hf : env.robotsFetch domain with _ | ⟨status, _ | r⟩ <;> rw [hf] at h <;>
      dsimp only at h
    · obtain ⟨rfl, rfl⟩ := (Prod.mk.injEq _ _ _ _).mp ((Except.ok.injEq _ _).mp h)
      exact ⟨by split <;> rfl, by split <;> rfl, by split <;> rfl,
             by split <;> rfl, hsave⟩
    · obtain ⟨rfl, rfl⟩ := (Prod.mk.injEq _ _ _ _).mp ((Except.ok.injEq _ _).mp h)
      exact ⟨by split <;> rfl, by split <;> rfl, by split <;> rfl,
             by split <;> rfl, hsave⟩
    · split at h <;>
      · obtain ⟨rfl, rfl⟩ := (Prod.mk.injEq _ _ _ _).mp ((Except.ok.injEq _ _).mp h)
        exact ⟨by split <;> rfl, by split <;> rfl, by split <;> rfl,
               by split <;> rfl, hsave⟩

/-- `get_robots_txt_parser` on a domain with no cached policy: it caches
the parser it returns, and beyond the robots download's own effects the
state is unchanged. -/
theorem get_robots_spec (env : Env) (url : String) (s : St)
    (p : CustomRobotsParser) (sA : St)
    (hrp : alookup s.robots_parsers
      (String.mk (urlparse (normalize url)).netloc) = none)
    (h : get_robots_txt_parser_for_url env url s = .ok (p, sA)) :
    alookup sA.robots_parsers
      (String.mk (urlparse (normalize url)).netloc) = some p ∧
    sA.domains_to_scrape = s.domains_to_scrape ∧
    sA.subdomains = s.subdomains ∧ sA.sitemaps = s.sitemaps ∧
    (∀ k, alookup sA.save k = alookup s.save k ∨
      ∃ rurl, alookup sA.save k = some (rurl, 1, true)) := by
  unfold get_robots_txt_parser_for_url at h
  simp only [] at h
  rw [hrp] at h
  dsimp only at h
  rcases hd : download_robots_txt_parser_for_domain env
      (String.mk (urlparse (normalize url)).netloc) s with e | ⟨p', s1⟩ <;>
    rw [hd] at h <;> dsimp only at h
  · simp at h
  · obtain ⟨rfl, rfl⟩ := (Prod.mk.injEq _ _ _ _).mp ((Except.ok.injEq _ _).mp h)
    obtain ⟨h1, h2, h3, h4, h5⟩ := download_robots_fields env _ s p' s1 hd
    refine ⟨?_, h1, h2, h3, h5⟩
    simp [alookup_ainsert]

/-- `add_url` short-circuits when the URL-hash is already indexed
(frontier.py lines 131-134): a re-add is a strict no-op. -/
theorem add_url_known_noop (env : Env) (u : String) (d' : Nat) (s1 : St)
    (hk : (alookup s1.save (get_urlhash (String.mk (geturlNoFragCL
      (urlparse (normalize u)))))).isSome = true) :
    ∀ f', add_url (f' + 1) env u d' s1 = .ok s1 := by
  intro f'
  simp [add_url, run, hk]

/-- `add_url` on a robots-denied URL whose domain is cached and whose
subdomain set already holds the URL is a strict no-op. -/
theorem add_url_denied_noop (env : Env) (u : String) (d' : Nat) (s1 : St)
    (p : CustomRobotsParser) (subs : List String)
    (hsv1 : (alookup s1.save (get_urlhash (String.mk (geturlNoFragCL
      (urlparse (normalize u)))))).isSome = false)
    (hrp1 : alookup s1.robots_parsers
      (String.mk (urlparse (normalize u)).netloc) = some p)
    (hcf : p.can_fetch (urlparse (normalize u)).path = false)
    (hsub : alookup s1.subdomains
      (String.mk (hostnameOf (urlparse (normalize u)).netloc)) = some subs)
    (hmem : String.mk (geturlNoFragCL (urlparse (normalize u))) ∈ subs) :
    ∀ f', add_url (f' + 1) env u d' s1 = .ok s1 := by
  intro f'
  have hins : sinsert subs (String.mk (geturlNoFragCL (urlparse (normalize u)))) = subs :=
    sinsert_mem _ _ hmem
  have hset : ainsert s1.subdomains
      (String.mk (hostnameOf (urlparse (normalize u)).netloc)) subs = s1.subdomains :=
    ainsert_self _ _ _ hsub
  simp [add_url, run, hsv1, hrp1, hcf, hsub, hins, hset]

/-- `qcountHash` of an explicitly built state only reads the queue field. -/
theorem qcountHash_mk (sv : List (String × (String × Nat × Bool)))
    (q : List (String × List (String × Nat)))
    (lrt : List (String × Int)) (rp : List (String × CustomRobotsParser))
    (sub : List (String × List String)) (sm : List (String × List String))
    (H : String) :
    qcountHash ⟨sv, q, lrt, rp, sub, sm⟩ H =
      (q.flatMap Prod.snd).countP (fun e => get_urlhash e.1 == H) := rfl

/-- Claim C3: re-adding is a no-op and enqueueing is unique.  If
`add_url(u, d)` completes normally, then (a) an immediately repeated
`add_url(u, d')` returns the same state unchanged, and (b) starting from a
state where `hash(u)` was unindexed and had no queue entry, the completed
call leaves at most one queue entry for `hash(u)` — exactly one precisely
when it stored the open record `(u, d, False)` (robots allowed); a denied
add leaves zero.  Nested sitemap re-entries cannot double-enqueue because
`is_valid` never returns `True` in this source. -/
theorem add_url_unique_enqueue (fuel fuel' : Nat) (env : Env) (u : String)
    (d d' : Nat) (s s1 : St)
    (h1 : add_url fuel env u d s = .ok s1) :
    add_url (fuel' + 1) env u d' s1 = .ok s1 ∧
    ((alookup s.save (urlhashOf u)).isSome = false →
      qcountHash s (urlhashOf u) = 0 →
      qcountHash s1 (urlhashOf u) ≤ 1 ∧
      (alookup s1.save (urlhashOf u) = some (fragmentlessOf u, d, false) →
        qcountHash s1 (urlhashOf u) = 1)) := by
  cases fuel with
  | zero => simp [add_url, run] at h1
  | succ f =>
    simp only [add_url, run] at h1
    by_cases hsv : (alookup s.save (get_urlhash (String.mk (geturlNoFragCL
        (urlparse (normalize u)))))).isSome = true
    · rw [if_pos hsv] at h1
      obtain rfl := (Except.ok.injEq _ _).mp h1
      refine ⟨add_url_known_noop env u d' s hsv fuel', ?_⟩
      intro hfresh
      rw [show urlhashOf u = get_urlhash (String.mk (geturlNoFragCL
        (urlparse (normalize u)))) from rfl] at hfresh
      rw [hsv] at hfresh
      simp at hfresh
    · rw [if_neg hsv] at h1
      have hsv' : (alookup s.save (get_urlhash (String.mk (geturlNoFragCL
          (urlparse (normalize u)))))).isSome = false := by
        simpa using hsv
      rcases hrp : alookup s.robots_parsers
          (String.mk (urlparse (normalize u)).netloc) with _ | p
      -- first contact with the domain: robots fetch + sitemap ingestion
      · rw [hrp] at h1
        dsimp only at h1
        rcases hgr : get_robots_txt_parser_for_url env (normalize u) s
            with e | ⟨p, sA⟩ <;> rw [hgr] at h1 <;> dsimp only at h1
        · simp at h1
        · rcases hsm : run f env
              (.sitemapsLoop (p.get_sitemaps.map String.mk)) sA
              with e | sB <;> rw [hsm] at h1 <;> dsimp only at h1
          · simp at h1
          · obtain ⟨hB1, hB2, hB3, hB4, hB5⟩ :=
              sitemapsLoop_fields env f _ sA sB hsm
            obtain ⟨hA1, hA2, hA3, hA4, hA5⟩ :=
              get_robots_spec env (normalize u) s p sA
                (by rw [normalize_idem]; exact hrp) hgr
            rw [normalize_idem] at hA1
            have hsave1 : ∀ k, alookup sB.save k = alookup s.save k ∨
                ∃ rurl, alookup sB.save k = some (rurl, 1, true) := by
              intro k; rw [hB1]; exact hA5 k
            have hq1 : sB.domains_to_scrape = s.domains_to_scrape := by
              rw [hB2, hA2]
            have hrob1 : alookup sB.robots_parsers
                (String.mk (urlparse (normalize u)).netloc) = some p := by
              rw [hB4]; exact hA1
            by_cases hcf : p.can_fetch (urlparse (normalize u)).path = true
            · -- robots allows: the record is stored and enqueued once
              rw [hcf] at h1
              simp only [Bool.not_true, Bool.false_eq_true, if_false] at h1
              obtain rfl := (Except.ok.injEq _ _).mp h1
              constructor
              · refine add_url_known_noop env u d' _ ?_ fuel'
                simp [alookup_ainsert]
              · intro hfresh hcount
                have hcB : qcountHash sB (urlhashOf u) = 0 := by
                  unfold qcountHash at hcount ⊢
                  rw [hq1]; exact hcount
                unfold qcountHash at hcB
                constructor
                · rw [qcountHash_mk, qput_flatten, hcB]
                  split <;> simp
                · intro _
                  rw [qcountHash_mk, qput_flatten, hcB]
                  rw [if_pos (by simp [urlhashOf, fragmentlessOf])]
            · -- robots denies: nothing stored, nothing enqueued
              rw [eq_false_of_ne_true hcf] at h1
              simp only [Bool.not_false, if_true] at h1
              obtain rfl := (Except.ok.injEq _ _).mp h1
              constructor
              · by_cases hk : (alookup sB.save (get_urlhash (String.mk
                    (geturlNoFragCL (urlparse (normalize u)))))).isSome = true
                · exact add_url_known_noop env u d' _ (by simpa using hk) fuel'
                · refine add_url_denied_noop env u d' _ p
                    (sinsert ((alookup sB.subdomains (String.mk (hostnameOf (urlparse (normalize u)).netloc))).getD []) (String.mk (geturlNoFragCL (urlparse (normalize u)))))
                    ?_ ?_ (eq_false_of_ne_true hcf) ?_ ?_ fuel'
                  · simpa using hk
                  · simpa using hrob1
                  · simp [alookup_ainsert]
                  · exact sinsert_mem_self _ _
              · intro hfresh hcount
                unfold qcountHash at hcount
                constructor
                · rw [qcountHash_mk, hq1, hcount]
                  omega
                · intro hstored
                  exfalso
                  have : alookup sB.save (urlhashOf u) =
                      some (fragmentlessOf u, d, false) := hstored
                  rcases hsave1 (urlhashOf u) with he | ⟨rurl, he⟩
                  · rw [he] at this
                    rw [show urlhashOf u = get_urlhash (String.mk (geturlNoFragCL
                      (urlparse (normalize u)))) from rfl] at this
                    rcases ho : alookup s.save (get_urlhash (String.mk (geturlNoFragCL
                        (urlparse (normalize u))))) with _ | v
                    · rw [ho] at this; simp at this
                    · rw [ho] at hsv'; simp at hsv'
                  · rw [he] at this
                    simp at this
      -- domain already known: cached parser
      · rw [hrp] at h1
        dsimp only at h1
        by_cases hcf : p.can_fetch (urlparse (normalize u)).path = true
        · rw [hcf] at h1
          simp only [Bool.not_true, Bool.false_eq_true, if_false] at h1
          obtain rfl := (Except.ok.injEq _ _).mp h1
          constructor
          · refine add_url_known_noop env u d' _ ?_ fuel'
            simp [alookup_ainsert]
          · intro hfresh hcount
            unfold qcountHash at hcount
            constructor
            · rw [qcountHash_mk, qput_flatten, hcount]
              split <;> simp
            · intro _
              rw [qcountHash_mk, qput_flatten, hcount]
              rw [if_pos (by simp [urlhashOf, fragmentlessOf])]
        · rw [eq_false_of_ne_true hcf] at h1
          simp only [Bool.not_false, if_true] at h1
          obtain rfl := (Except.ok.injEq _ _).mp h1
          constructor
          · refine add_url_denied_noop env u d' _ p
              (sinsert ((alookup s.subdomains (String.mk (hostnameOf (urlparse (normalize u)).netloc))).getD []) (String.mk (geturlNoFragCL (urlparse (normalize u)))))
              ?_ ?_ (eq_false_of_ne_true hcf) ?_ ?_ fuel'
            · simpa using hsv
            · exact hrp
            · simp [alookup_ainsert]
            · exact sinsert_mem_self _ _
          · intro hfresh hcount
            unfold qcountHash at hcount
            refine ⟨by rw [qcountHash_mk, hcount]; omega, ?_⟩
            intro hstored
            exfalso
            have : alookup s.save (urlhashOf u) =
                some (fragmentlessOf u, d, false) := hstored
            rw [show urlhashOf u = get_urlhash (String.mk (geturlNoFragCL
              (urlparse (normalize u)))) from rfl] at this
            rw [this] at hsv'
            simp at hsv'

/-- The frontier state after `add_url("http://c.ics.uci.edu/ok/page", 2)`
on a fresh frontier under `envC`. -/
def stOkPage : St where
  save := [(get_urlhash "https://c.ics.uci.edu/robots.txt",
            ("https://c.ics.uci.edu/robots.txt", 1, true)),
           (get_urlhash "http://c.ics.uci.edu/ok/page",
            ("http://c.ics.uci.edu/ok/page", 2, false))]
  domains_to_scrape := [("c.ics.uci.edu", [("http://c.ics.uci.edu/ok/page", 2)])]
  last_request_time := [("c.ics.uci.edu", 100)]
  robots_parsers := [("c.ics.uci.edu",
    ⟨"crawler".toList, [], ["/private".toList], [], some ['*']⟩)]
  subdomains := [("c.ics.uci.edu", ["http://c.ics.uci.edu/ok/page"])]
  sitemaps := []

/-- Concrete instance of claim C3: after a successful allowed add of
`http://c.ics.uci.edu/ok/page`, a repeated add (even at another depth) is
a strict no-op and the URL-hash has exactly one queue entry. -/
theorem add_url_unique_enqueue_witness :
    add_url 5 envC "http://c.ics.uci.edu/ok/page" 7 stOkPage = .ok stOkPage ∧
    qcountHash stOkPage (urlhashOf "http://c.ics.uci.edu/ok/page") = 1 :=
  ⟨(add_url_unique_enqueue 5 4 envC "http://c.ics.uci.edu/ok/page" 2 7
      St.empty stOkPage (by decide)).1,
   ((add_url_unique_enqueue 5 4 envC "http://c.ics.uci.edu/ok/page" 2 7
      St.empty stOkPage (by decide)).2 (by decide) (by decide)).2 (by decide)⟩

/-! ## Support lemmas for claim C5 -/

theorem breakChar_not_mem (c : Char) :
    ∀ l : List Char, c ∉ l → breakChar c l = none := by
  intro l
  induction l with
  | nil => intro _; rfl
  | cons a l ih =>
      intro h
      have ha : ¬a = c := fun e => h (by simp [e])
      have hl : c ∉ l := fun e => h (List.mem_cons_of_mem _ e)
      simp [breakChar, ha, ih hl]

theorem breakChar_append (c : Char) :
    ∀ (l r : List Char), c ∉ l →
      breakChar c (l ++ c :: r) = some (l, r) := by
  intro l
  induction l with
  | nil => intro r _; simp [breakChar]
  | cons a l ih =>
      intro r h
      have ha : ¬a = c := fun e => h (by simp [e])
      have hl : c ∉ l := fun e => h (List.mem_cons_of_mem _ e)
      simp [breakChar, ha, ih r hl]

theorem takeWhile_append_sep (p : Char → Bool) (c : Char) (hc : p c = false) :
    ∀ (a f : List Char), (a ++ c :: f).takeWhile p = a.takeWhile p := by
  intro a f
  induction a with
  | nil => simp [List.takeWhile, hc]
  | cons x a ih =>
      by_cases hx : p x
      · simp [List.takeWhile_cons, hx, ih]
      · simp [List.takeWhile_cons, hx]

theorem dropWhile_append_sep (p : Char → Bool) (c : Char) (hc : p c = false) :
    ∀ (a f : List Char), (a ++ c :: f).dropWhile p = a.dropWhile p ++ c :: f := by
  intro a f
  induction a with
  | nil => simp [List.dropWhile, hc]
  | cons x a ih =>
      by_cases hx : p x
      · simp [List.dropWhile_cons, hx, ih]
      · simp [List.dropWhile_cons, hx]

/-- The scheme-candidate test of CPython's `urlsplit`: non-empty,
alphabetic first character, scheme characters throughout. -/
def isSchemeLike (s : String) : Bool :=
  !s.toList.isEmpty && s.toList.headI.isAlpha && s.toList.all schemeChar

theorem splitScheme_append (sch : String) (r : List Char)
    (h : isSchemeLike sch = true) :
    splitScheme (sch.toList ++ ':' :: r) = (sch.toList.map Char.toLower, r) := by
  simp only [isSchemeLike, Bool.and_eq_true] at h
  obtain ⟨⟨hne, hal⟩, hall⟩ := h
  have hnc : ':' ∉ sch.toList := by
    intro hm
    have := List.all_eq_true.mp hall ':' hm
    simp [schemeChar] at this
  unfold splitScheme
  rw [breakChar_append ':' _ _ hnc]
  dsimp only
  rw [if_pos ⟨by simpa using hne, hal, hall⟩]

theorem string_toList_append (a b : String) :
    (a ++ b).toList = a.toList ++ b.toList := by
  simp [String.toList, String.data_append]

/-- The `uses_params` gate at the `String` level: membership of the
lower-cased scheme, as `urlparse` tests it after `urlsplit` lower-cases. -/
def usesParamsStr (s : String) : Bool := usesParams (s.toList.map Char.toLower)

/-- Scheme invariance of the identity hash's pre-image: two URLs that
differ only in their (well-formed) scheme produce the same
`netloc/path/params/query` key string, provided the two schemes agree on
`uses_params` membership (otherwise the params split can differ). -/
theorem urlKeyString_scheme_inv (s1 s2 rest' : String)
    (h1 : isSchemeLike s1 = true) (h2 : isSchemeLike s2 = true)
    (h3 : usesParamsStr s1 = usesParamsStr s2) :
    urlKeyString (s1 ++ ":" ++ rest') = urlKeyString (s2 ++ ":" ++ rest') := by
  unfold urlKeyString urlparse urlparseCL
  have e1 : (s1 ++ ":" ++ rest').toList = s1.toList ++ ':' :: rest'.toList := by
    simp [string_toList_append]
  have e2 : (s2 ++ ":" ++ rest').toList = s2.toList ++ ':' :: rest'.toList := by
    simp [string_toList_append]
  rw [e1, e2, splitScheme_append s1 _ h1, splitScheme_append s2 _ h2]
  dsimp only [parseAfterScheme]
  have h3' : usesParams (s1.toList.map Char.toLower) =
      usesParams (s2.toList.map Char.toLower) := h3
  rw [h3']

/-- The query/path/params splits ignore the fragment argument. -/
theorem restQP_key (b : Bool) (n r2 f1 f2 : List Char) :
    (restQP b n r2 f1).netloc = (restQP b n r2 f2).netloc ∧
    (restQP b n r2 f1).path = (restQP b n r2 f2).path ∧
    (restQP b n r2 f1).params = (restQP b n r2 f2).params ∧
    (restQP b n r2 f1).query = (restQP b n r2 f2).query := by
  unfold restQP restP
  rcases breakChar '?' r2 with _ | ⟨a, q⟩ <;> exact ⟨rfl, rfl, rfl, rfl⟩

/-- `parseRest` on a `//`-prefixed remainder: netloc then fragment. -/
theorem parseRest_cons2 (b : Bool) (l : List Char) :
    parseRest b ('/' :: '/' :: l) =
      (match breakChar '#' (l.dropWhile (fun c => !netlocDelim c)) with
       | some (a, b') => restQP b (l.takeWhile (fun c => !netlocDelim c)) a b'
       | none => restQP b (l.takeWhile (fun c => !netlocDelim c))
           (l.dropWhile (fun c => !netlocDelim c)) []) := by
  unfold parseRest
  rfl

/-- Fragment invariance: appending `#fragment` to a fragment-free
absolute URL does not change the identity-hash key string. -/
theorem urlKeyString_fragment_inv (sch rest' f : String)
    (hs : isSchemeLike sch = true) (hr : '#' ∉ rest'.toList) :
    urlKeyString (sch ++ "://" ++ rest' ++ "#" ++ f) =
      urlKeyString (sch ++ "://" ++ rest') := by
  unfold urlKeyString urlparse urlparseCL
  have e1 : (sch ++ "://" ++ rest' ++ "#" ++ f).toList =
      sch.toList ++ ':' :: ('/' :: '/' :: (rest'.toList ++ '#' :: f.toList)) := by
    simp [string_toList_append]
  have e2 : (sch ++ "://" ++ rest').toList =
      sch.toList ++ ':' :: ('/' :: '/' :: rest'.toList) := by
    simp [string_toList_append]
  rw [e1, e2, splitScheme_append sch _ hs, splitScheme_append sch _ hs]
  dsimp only [parseAfterScheme]
  rw [parseRest_cons2, parseRest_cons2]
  have hph : (fun c => !netlocDelim c) '#' = false := by simp [netlocDelim]
  have hnd : '#' ∉ rest'.toList.dropWhile (fun c => !netlocDelim c) := by
    intro hm
    exact hr ((List.dropWhile_sublist _).mem hm)
  rw [takeWhile_append_sep _ '#' hph, dropWhile_append_sep _ '#' hph]
  rw [breakChar_append '#' _ _ hnd, breakChar_not_mem '#' _ hnd]
  dsimp only
  obtain ⟨k1, k2, k3, k4⟩ := restQP_key
    (usesParams (sch.toList.map Char.toLower))
    (rest'.toList.takeWhile (fun c => !netlocDelim c))
    (rest'.toList.dropWhile (fun c => !netlocDelim c)) f.toList []
  rw [k1, k2, k3, k4]

/-- `normalize` collapses a trailing slash: both spellings reach the same
normalized string before hashing. -/
theorem normalize_append_slash (u : String) :
    normalize (u ++ "/") = normalize u := by
  unfold normalize
  have e1 : (u ++ "/").toList = u.toList ++ ['/'] := by
    simp [string_toList_append]
  rw [e1]
  have hlast : (u.toList ++ ['/']).getLast? = some '/' := by simp
  rw [if_pos hlast]
  have e2 : rstripSlash (u.toList ++ ['/']) = rstripSlash u.toList := by
    unfold rstripSlash
    simp [List.dropWhile]
  rw [e2]
  split
  next h => rfl
  next h =>
    have hrev : u.toList.reverse.dropWhile (· = '/') = u.toList.reverse := by
      cases hh : u.toList.reverse with
      | nil => rfl
      | cons a t =>
          have hne : ¬a = '/' := by
            intro he
            apply h
            rw [List.getLast?_eq_head?_reverse, hh, he]
            rfl
          rw [List.dropWhile_cons_of_neg (by simpa using hne)]
    unfold rstripSlash
    rw [hrev, List.reverse_reverse]
    rfl

/-- Claim C5 (amended): `get_urlhash` is invariant under the scheme of a
URL provided both schemes agree on `uses_params` membership — `urlparse`
splits `params` off the path only for `uses_params` schemes, so e.g.
`ws://a.com/p;x` and `http://a.com/p;x` hash differently — and invariant
under the fragment; trailing-slash-only differences are collapsed not by
`get_urlhash` itself but by the `normalize` step `add_url` applies before
hashing (see the counterexample for the raw hash). -/
theorem get_urlhash_invariances :
    (∀ s1 s2 rest' : String, isSchemeLike s1 = true → isSchemeLike s2 = true →
      usesParamsStr s1 = usesParamsStr s2 →
      get_urlhash (s1 ++ ":" ++ rest') = get_urlhash (s2 ++ ":" ++ rest')) ∧
    (∀ sch rest' f : String, isSchemeLike sch = true → '#' ∉ rest'.toList →
      get_urlhash (sch ++ "://" ++ rest' ++ "#" ++ f) =
        get_urlhash (sch ++ "://" ++ rest')) ∧
    (∀ u : String,
      get_urlhash (normalize (u ++ "/")) = get_urlhash (normalize u)) ∧
    (usesParamsStr "ws" = false ∧ usesParamsStr "http" = true ∧
      get_urlhash "ws://a.com/p;x" ≠ get_urlhash "http://a.com/p;x") := by
  refine ⟨?_, ?_, ?_, ?_⟩
  · intro s1 s2 rest' h1 h2 h3
    unfold get_urlhash
    rw [urlKeyString_scheme_inv s1 s2 rest' h1 h2 h3]
  · intro sch rest' f hs hr
    unfold get_urlhash
    rw [urlKeyString_fragment_inv sch rest' f hs hr]
  · intro u
    rw [normalize_append_slash]
  · exact ⟨by decide, by decide, by decide⟩

/-- Claim C5 counterexample: two URLs differing only in a trailing slash
have different raw `get_urlhash` values — the hash input keeps the
trailing slash (`a.com//x///` vs `a.com//x//`), so the claimed
trailing-slash collision fails for `get_urlhash` taken alone. -/
theorem get_urlhash_trailing_slash_differs :
    "http://a.com/x/" = "http://a.com/x" ++ "/" ∧
    get_urlhash "http://a.com/x/" ≠ get_urlhash "http://a.com/x" := by
  exact ⟨rfl, by decide⟩

/-- Concrete instance of the amended claim C5 at `http://a.com/x`
(`http` and `https` are both `uses_params` schemes). -/
theorem get_urlhash_invariances_witness :
    get_urlhash ("http" ++ ":" ++ "//a.com/x") =
      get_urlhash ("https" ++ ":" ++ "//a.com/x") ∧
    get_urlhash ("http" ++ "://" ++ "a.com/x" ++ "#" ++ "frag") =
      get_urlhash ("http" ++ "://" ++ "a.com/x") ∧
    get_urlhash (normalize ("http://a.com/x" ++ "/")) =
      get_urlhash (normalize "http://a.com/x") :=
  ⟨get_urlhash_invariances.1 "http" "https" "//a.com/x" (by decide) (by decide)
     (by decide),
   get_urlhash_invariances.2.1 "http" "a.com/x" "frag" (by decide) (by decide),
   get_urlhash_invariances.2.2.1 "http://a.com/x"⟩

/-! ## Claim C9: the similarity index (`Frontier.add_simhash`) -/

/-- Python values that can appear in the `simhashes` dict: URL strings and
`SimHash` instances.  `SimHash` defines no `__eq__`/`__hash__`, so as a
dict key an instance compares by identity; the `id` field models that,
alongside the fingerprint the instance carries. -/
inductive PyVal where
  | str (s : String)
  | simhashObj (id : Nat) (fingerprint : Nat)
  deriving DecidableEq, Repr

/-- `Frontier.add_simhash(self, url, simhash)` (frontier.py lines
163-172): `self.simhashes[simhash] = url` — the second parameter is the
key, the first the value. -/
def add_simhash (simhashes : List (PyVal × PyVal)) (url simhash : PyVal) :
    List (PyVal × PyVal) :=
  ainsert simhashes simhash url

/-- What `Worker.run` line 133 actually performs:
`self.frontier.add_simhash(simhash, tbd_url)` — the arguments are passed
in swapped positions, so the URL string becomes the key and the `SimHash`
object the value. -/
def worker_record_simhash (simhashes : List (PyVal × PyVal))
    (simhash : PyVal) (tbd_url : String) : List (PyVal × PyVal) :=
  add_simhash simhashes simhash (.str tbd_url)

/-- Claim C9 (code bug): after two URLs with the same content fingerprint
(42) are processed, the similarity index does not map the fingerprint to
the first URL — it does not map the fingerprint to anything, because the
worker passes `add_simhash(simhash, tbd_url)` with the arguments swapped
relative to the method's `(url, simhash)` signature, so the index maps
URL strings to `SimHash` objects; moreover the worker records the
fingerprint before its near-duplicate check, so the duplicate's entry is
added too, leaving two entries carrying fingerprint 42 instead of one
representative. -/
theorem add_simhash_swapped_breaks_index :
    worker_record_simhash
        (worker_record_simhash [] (.simhashObj 1 42) "http://h/x")
        (.simhashObj 2 42) "http://h/y" =
      [(.str "http://h/x", .simhashObj 1 42),
       (.str "http://h/y", .simhashObj 2 42)] ∧
    alookup (worker_record_simhash
        (worker_record_simhash [] (.simhashObj 1 42) "http://h/x")
        (.simhashObj 2 42) "http://h/y") (.simhashObj 1 42) = none ∧
    (worker_record_simhash
        (worker_record_simhash [] (.simhashObj 1 42) "http://h/x")
        (.simhashObj 2 42) "http://h/y").countP
      (fun e => match e.2 with
        | .simhashObj _ fp => fp == 42
        | _ => false) = 2 := by
  refine ⟨by decide, by decide, by decide⟩

/-! ## Claim C1: the worker loop (src/crawler/worker.py) -/

/-- `parse_qsl` (urllib, modelled at its interface for plain queries
without percent-escapes): split on `&`, drop empty chunks, split each on
the first `=`, drop chunks without `=` and blank values
(`keep_blank_values=False`). -/
def parse_qsl (query : List Char) : List (List Char × List Char) :=
  (splitOnChar '&' query).filterMap (fun nv =>
    if nv.isEmpty then none
    else match breakChar '=' nv with
      | none => none
      | some (n, v) => if v.isEmpty then none else some (n, v))

/-- `parse_qs`: group `parse_qsl` pairs into name → list of values. -/
def parse_qs (query : List Char) : List (List Char × List (List Char)) :=
  (parse_qsl query).foldl
    (fun m nv => match alookup m nv.1 with
      | some vs => ainsert m nv.1 (vs ++ [nv.2])
      | none => ainsert m nv.1 [nv.2]) []

/-- Elements of the sets `jaccard_similarity` compares: path segments and
`(query-key, value-tuple)` pairs. -/
inductive JElem where
  | seg (s : List Char)
  | kv (k : List Char) (v : List (List Char))
  deriving DecidableEq, Repr

/-- `worker.jaccard_similarity` (worker.py lines 161-182): 0 across
different hosts, otherwise |∩|/|∪| of path-segment/query-pair sets. -/
def jaccard_similarity (url1 url2 : String) : ℚ :=
  let p1 := urlparse url1
  let p2 := urlparse url2
  if p1.netloc ≠ p2.netloc then 0
  else
    let set1 := ((splitOnChar '/' p1.path).map JElem.seg ++
      (parse_qs p1.query).map (fun kv => JElem.kv kv.1 kv.2)).dedup
    let set2 := ((splitOnChar '/' p2.path).map JElem.seg ++
      (parse_qs p2.query).map (fun kv => JElem.kv kv.1 kv.2)).dedup
    let inter := set1.filter (· ∈ set2)
    let union := set1 ++ set2.filter (· ∉ set1)
    (inter.length : ℚ) / union.length

/-- The counting loop of `worker.is_similar_url`: early `True` at the
fifth old URL scoring at least 0.95. -/
def isSimilarUrlGo (new_url : String) : List String → Nat → Bool
  | [], _ => false
  | u :: rest, c =>
      if (95 : ℚ) / 100 ≤ jaccard_similarity new_url u then
        if 5 ≤ c + 1 then true else isSimilarUrlGo new_url rest (c + 1)
      else isSimilarUrlGo new_url rest c

/-- `worker.is_similar_url` with its default thresholds. -/
def is_similar_url (new_url : String) (old_urls : List String) : Bool :=
  isSimilarUrlGo new_url old_urls 0

/-- The frontier calls a worker iteration can make. -/
inductive FCall where
  | markComplete (url : String) (depth : Nat)
  | addLowData (url : String)
  | addErrorUrl (url : String) (status : Int)
  | addUrlCall (url : String) (depth : Nat)
  | addWords (url : String)
  deriving DecidableEq, Repr

/-- `resp.raw_response` as one worker iteration would consume it. -/
structure WRaw where
  location : Option String
  contentLength : Option Int
  contentType : String
  links : List String
  deriving DecidableEq, Repr

/-- Outcome of the fetch a worker iteration would perform. -/
inductive WFetch where
  | exc
  | resp (status : Int) (raw : Option WRaw)
  deriving DecidableEq, Repr

/-- The worker's external collaborators. -/
structure WEnv where
  download : String → WFetch

/-- One iteration of `Worker.run` on a popped `(tbd_url, depth)`
(worker.py lines 53-146), as the trace of frontier calls it performs plus
the exception that escapes it, if any.  In the current source control
never passes line 75: `scraper.is_infinite_trap` does not exist (the
function is commented out in scraper.py), so `AttributeError` escapes
`run` and kills the thread; the fetch (`wenv.download`), the scraper call
and the enqueue loop of lines 81-146 are unreachable, which is why the
result cannot depend on `wenv`.  The two bad-URL branches before line 75
are live; note `add_low_data_url(tbd_url, 404)` on line 64 passes two
positional arguments to a one-parameter method, a `TypeError`. -/
def workerStep (wenv : WEnv) (tbd_url : String) (depth : Nat)
    (low_data error_urls : List String) : List FCall × Option PyErr :=
  if 28 < depth then ([.markComplete tbd_url depth], none)
  else if is_similar_url tbd_url low_data then
    ([.markComplete tbd_url depth], some .typeError)
  else if is_similar_url tbd_url error_urls then
    ([.markComplete tbd_url depth, .addErrorUrl tbd_url 404], none)
  else
    ([], some .attributeError)

/-- A fetch oracle under which the claim's premises would all hold: every
download returns HTTP 200 with a non-empty HTML body carrying an outlink. -/
def wenvOk : WEnv where
  download := fun _ =>
    .resp 200 (some ⟨none, none, "text/html", ["https://poewiki.net/wiki/Next"]⟩)

/-- Claim C1 (code bug): a popped URL whose fetch would return HTTP 200
with a body and an extractable outlink never has that outlink added —
the worker raises `AttributeError` at `scraper.is_infinite_trap`
(worker.py line 75) before fetching, makes no `frontier.add_url` call, and
never even marks the URL complete; the thread dies. -/
theorem worker_crashes_before_enqueue :
    wenvOk.download "https://poewiki.net/wiki/Landing" =
      .resp 200 (some ⟨none, none, "text/html",
        ["https://poewiki.net/wiki/Next"]⟩) ∧
    workerStep wenvOk "https://poewiki.net/wiki/Landing" 0 [] [] =
      ([], some .attributeError) :=
  ⟨rfl, by decide⟩

/-! ## Claim C2: politeness of `Frontier.get_tbd_url`

`get_tbd_url` (frontier.py lines 84-111) runs entirely under the frontier
lock, so its executions serialize; we model the observable scheduler
events as a labelled transition system over `St`.  One pass of its
`for domain, url_queue in list(self.domains_to_scrape.items())` loop is
the `scan` function below, consuming a pair of wall-clock readings per
examined domain (the check read of line 100 and the record read of line
105); a successful pop returns the URL and stamps
`last_request_time[domain]`, an empty ready queue is deleted, a
not-yet-ready domain is skipped.  Other frontier operations touch these
two fields only by enqueueing (`add_url`, `_parse_save_file`) or by
stamping `last_request_time` on a first-contact robots download (which
raises before stamping if the domain already has an entry). -/

/-- `del d[k]`. -/
def aremove [DecidableEq K] : List (K × V) → K → List (K × V)
  | [], _ => []
  | (k', v) :: m, k => if k = k' then m else (k', v) :: aremove m k

/-- Result of one pass of the domain loop. -/
inductive ScanRes where
  | found (domain url : String) (depth : Nat) (checkT recT : Int) (s' : St)
  | exhausted (s' : St)
  deriving DecidableEq

/-- One pass of the `get_tbd_url` domain loop over a snapshot of the
domain list, with a stream of `(check, record)` clock readings. -/
def scan (delay : Int) :
    List (String × List (String × Nat)) → List (Int × Int) → St → ScanRes
  | [], _, s => .exhausted s
  | _ :: _, [], s => .exhausted s
  | (dom, _) :: rest, (c, t) :: cl, s =>
      if delay ≤ c - (alookup s.last_request_time dom).getD 0 then
        match alookup s.domains_to_scrape dom with
        | some (e :: q') =>
            .found dom e.1 e.2 c t { s with domains_to_scrape := ainsert s.domains_to_scrape dom q', last_request_time := ainsert s.last_request_time dom t }
        | some [] =>
            scan delay rest cl { s with domains_to_scrape := aremove s.domains_to_scrape dom }
        | none => scan delay rest cl s
      else scan delay rest cl s

/-- Scheduler-visible events. -/
inductive Ev where
  | ret (domain url : String) (depth : Nat) (checkT recT : Int)
  | miss
  | enq (domain url : String) (depth : Nat)
  | stamp (domain : String) (t : Int)
  deriving DecidableEq, Repr

/-- The wall-clock readings an event consumes, in order. -/
def evTimes : Ev → List Int
  | .ret _ _ _ c t => [c, t]
  | .stamp _ t => [t]
  | _ => []

/-- All clock readings of a trace, in order. -/
def traceTimes (evs : List Ev) : List Int := evs.flatMap evTimes

/-- The labelled transition relation of the scheduler. -/
inductive SchedStep (delay : Int) : St → Ev → St → Prop where
  | next (s : St) (clocks : List (Int × Int)) (dom url : String)
      (depth : Nat) (c t : Int) (s' : St) :
      scan delay s.domains_to_scrape clocks s = .found dom url depth c t s' →
      SchedStep delay s (.ret dom url depth c t) s'
  | miss (s : St) (clocks : List (Int × Int)) (s' : St) :
      scan delay s.domains_to_scrape clocks s = .exhausted s' →
      SchedStep delay s .miss s'
  | enq (s : St) (dom url : String) (depth : Nat) :
      SchedStep delay s (.enq dom url depth) { s with domains_to_scrape := qput s.domains_to_scrape dom (url, depth) }
  | stamp (s : St) (dom : String) (t : Int) :
      alookup s.last_request_time dom = none →
      SchedStep delay s (.stamp dom t) { s with last_request_time := ainsert s.last_request_time dom t }

/-- Multi-step executions. -/
inductive Reaches (delay : Int) : St → List Ev → St → Prop where
  | nil (s : St) : Reaches delay s [] s
  | cons {s s' s'' : St} {e : Ev} {evs : List Ev} :
      SchedStep delay s e s' → Reaches delay s' evs s'' →
      Reaches delay s (e :: evs) s''

/-- The `(check, record)` times of the returns for one host, in order. -/
def retsOf (h : String) (evs : List Ev) : List (Int × Int) :=
  evs.filterMap (fun e => match e with
    | .ret dom _ _ c t => if dom = h then some (c, t) else none
    | _ => none)

theorem scan_exhausted_lrt (delay : Int) :
    ∀ (snap : List (String × List (String × Nat))) (cl : List (Int × Int))
      (s s' : St), scan delay snap cl s = .exhausted s' →
      s'.last_request_time = s.last_request_time := by
  intro snap
  induction snap with
  | nil =>
      intro cl s s' h
      cases h
      rfl
  | cons hd rest ih =>
      intro cl s s' h
      obtain ⟨dom, q⟩ := hd
      cases cl with
      | nil => cases h; rfl
      | cons ct cl =>
          obtain ⟨c, t⟩ := ct
          unfold scan at h
          split at h
          · rcases hq : alookup s.domains_to_scrape dom with _ | (_ | ⟨e, q'⟩) <;>
              rw [hq] at h <;> dsimp only at h
            · have hres := ih cl _ s' h
              exact hres
            · have hres := ih cl _ s' h
              exact hres
            · cases h
          · exact ih cl s s' h

theorem scan_found_spec (delay : Int) :
    ∀ (snap : List (String × List (String × Nat))) (cl : List (Int × Int))
      (s : St) (dom url : String) (dep : Nat) (c t : Int) (s' : St),
      scan delay snap cl s = .found dom url dep c t s' →
      s'.last_request_time = ainsert s.last_request_time dom t ∧
      delay ≤ c - (alookup s.last_request_time dom).getD 0 := by
  intro snap
  induction snap with
  | nil => intro cl s dom url dep c t s' h; cases h
  | cons hd rest ih =>
      intro cl s dom url dep c t s' h
      obtain ⟨dom0, q0⟩ := hd
      cases cl with
      | nil => cases h
      | cons ct cl =>
          obtain ⟨c0, t0⟩ := ct
          unfold scan at h
          split at h
          next hready =>
            rcases hq : alookup s.domains_to_scrape dom0 with _ | (_ | ⟨e, q'⟩) <;>
              rw [hq] at h <;> dsimp only at h
            · have hres := ih cl _ dom url dep c t s' h
              exact hres
            · have hres := ih cl _ dom url dep c t s' h
              exact hres
            · cases h
              exact ⟨rfl, hready⟩
          next => exact ih cl s dom url dep c t s' h

/-- Invariant proof for P1: along any execution with monotone clock
readings, the recorded `last_request_time` of a host stays at or above the
record time of its last return, and every further return for that host
checks the politeness guard against it. -/
theorem polite_aux (delay : Int) (hdom : String) :
    ∀ (evs : List Ev) (s sEnd : St), Reaches delay s evs sEnd →
    ∀ (lo : Int) (b : Option Int),
      List.Chain' (· ≤ ·) (lo :: traceTimes evs) →
      (∀ bv, b = some bv → bv ≤ lo ∧
        ∃ v, alookup s.last_request_time hdom = some v ∧ bv ≤ v) →
      List.Chain' (fun p q => p.2 + delay ≤ q.2)
        ((b.map (fun bv => ((0 : Int), bv))).toList ++ retsOf hdom evs) := by
  intro evs
  induction evs with
  | nil =>
      intro s sEnd hr lo b hc hb
      rcases b with _ | bv <;> simp [retsOf]
  | cons e evs ih =>
      intro s sEnd hr lo b hc hb
      cases hr with
      | cons hstep hrest =>
      rename_i s2
      cases hstep with
      | next clocks dom url dep c t =>
          rename_i hscan
          obtain ⟨hts, hready⟩ :=
            scan_found_spec delay _ clocks s dom url dep c t s2 hscan
          have hc' : List.Chain' (· ≤ ·) (lo :: c :: t :: traceTimes evs) := by
            simpa [traceTimes, evTimes] using hc
          have hlc : lo ≤ c := (List.chain'_cons.mp hc').1
          have hct : c ≤ t :=
            (List.chain'_cons.mp (List.chain'_cons.mp hc').2).1
          have hctail : List.Chain' (· ≤ ·) (t :: traceTimes evs) :=
            (List.chain'_cons.mp (List.chain'_cons.mp hc').2).2
          by_cases hd : dom = hdom
          · subst hd
            have hrets : retsOf dom (Ev.ret dom url dep c t :: evs) =
                (c, t) :: retsOf dom evs := by
              simp [retsOf]
            rw [hrets]
            have hlook : alookup s2.last_request_time dom = some t := by
              rw [hts]
              simp [alookup_ainsert]
            have hbnew : ∀ bv, (some t : Option Int) = some bv → bv ≤ t ∧
                ∃ v, alookup s2.last_request_time dom = some v ∧ bv ≤ v := by
              intro bv hbv
              injection hbv with hbv
              subst hbv
              exact ⟨le_refl t, t, hlook, le_refl t⟩
            have ihc := ih s2 sEnd hrest t (some t) hctail hbnew
            have hchain2 : List.Chain' (fun p q => p.2 + delay ≤ q.2)
                ((c, t) :: retsOf dom evs) := by
              have ihc' : List.Chain' (fun p q => p.2 + delay ≤ q.2)
                  (((0 : Int), t) :: retsOf dom evs) := ihc
              rw [List.chain'_cons'] at ihc' ⊢
              exact ⟨fun y hy => ihc'.1 y hy, ihc'.2⟩
            rcases b with _ | bv
            · exact hchain2
            · obtain ⟨hblo, v, hv, hbv⟩ := hb bv rfl
              have hg : delay ≤ c - v := by
                rw [hv] at hready
                simpa using hready
              have hbt : bv + delay ≤ t := by omega
              exact List.chain'_cons.mpr ⟨hbt, hchain2⟩
          · have hrets : retsOf hdom (Ev.ret dom url dep c t :: evs) =
                retsOf hdom evs := by
              simp [retsOf, hd]
            rw [hrets]
            refine ih s2 sEnd hrest t b hctail ?_
            intro bv hbv
            obtain ⟨hblo, v, hv, hbv'⟩ := hb bv hbv
            refine ⟨by omega, v, ?_, hbv'⟩
            rw [hts, alookup_ainsert, if_neg (fun e => hd e.symm)]
            exact hv
      | miss clocks =>
          rename_i hscan
          have hlrt := scan_exhausted_lrt delay _ clocks s s2 hscan
          have hc' : List.Chain' (· ≤ ·) (lo :: traceTimes evs) := by
            simpa [traceTimes, evTimes] using hc
          have hrets : retsOf hdom (Ev.miss :: evs) = retsOf hdom evs := by
            simp [retsOf]
          rw [hrets]
          refine ih s2 sEnd hrest lo b hc' ?_
          intro bv hbv
          obtain ⟨hblo, v, hv, hb'⟩ := hb bv hbv
          exact ⟨hblo, v, by rw [hlrt]; exact hv, hb'⟩
      | enq dom url dep =>
          have hc' : List.Chain' (· ≤ ·) (lo :: traceTimes evs) := by
            simpa [traceTimes, evTimes] using hc
          have hrets : retsOf hdom (Ev.enq dom url dep :: evs) =
              retsOf hdom evs := by
            simp [retsOf]
          rw [hrets]
          refine ih _ sEnd hrest lo b hc' ?_
          intro bv hbv
          obtain ⟨hblo, v, hv, hb'⟩ := hb bv hbv
          exact ⟨hblo, v, hv, hb'⟩
      | stamp dom t hnone =>
          have hc' : List.Chain' (· ≤ ·) (lo :: t :: traceTimes evs) := by
            simpa [traceTimes, evTimes] using hc
          have hlt : lo ≤ t := (List.chain'_cons.mp hc').1
          have hctail : List.Chain' (· ≤ ·) (t :: traceTimes evs) :=
            (List.chain'_cons.mp hc').2
          have hrets : retsOf hdom (Ev.stamp dom t :: evs) =
              retsOf hdom evs := by
            simp [retsOf]
          rw [hrets]
          by_cases hd : dom = hdom
          · subst hd
            rcases b with _ | bv
            · refine ih _ sEnd hrest t none hctail ?_
              intro bv hbv
              cases hbv
            · obtain ⟨_, v, hv, _⟩ := hb bv rfl
              rw [hnone] at hv
              cases hv
          · refine ih _ sEnd hrest t b hctail ?_
            intro bv hbv
            obtain ⟨hblo, v, hv, hb'⟩ := hb bv hbv
            refine ⟨by omega, v, ?_, hb'⟩
            show alookup (ainsert s.last_request_time dom t) hdom = some v
            rw [alookup_ainsert, if_neg (fun e => hd e.symm)]
            exact hv

/-- Claim C2 (politeness P1): along any scheduler execution that starts
with an empty `last_request_time` table and whose wall-clock readings are
monotone, the successive recorded timestamps at which `get_tbd_url`
returns URLs of one host are separated by at least `politeness_delay`:
each return's check reads the host's `last_request_time`, which is at or
above the previous return's recorded time, and requires a gap of at least
`delay` before popping. -/
theorem get_tbd_url_politeness (delay : Int) (s0 sEnd : St)
    (evs : List Ev) (hdomain : String)
    (hrun : Reaches delay s0 evs sEnd)
    (hmono : List.Chain' (· ≤ ·) (traceTimes evs))
    (hinit : s0.last_request_time = []) :
    List.Chain' (fun p q => p.2 + delay ≤ q.2) (retsOf hdomain evs) := by
  have hchain : List.Chain' (· ≤ ·)
      ((traceTimes evs).headI :: traceTimes evs) := by
    rw [List.chain'_cons']
    refine ⟨?_, hmono⟩
    intro y hy
    cases hts : traceTimes evs with
    | nil => rw [hts] at hy; cases hy
    | cons a l =>
        rw [hts] at hy
        simp at hy
        subst hy
        simp [hts]
  have := polite_aux delay hdomain evs s0 sEnd hrun
    ((traceTimes evs).headI) none hchain (by intro bv hbv; cases hbv)
  exact this

/-- Concrete instance of claim C2: host `h` with two queued URLs, popped
at recorded times 3 and 9 under `politeness_delay = 2`; the gap 9 - 3
meets the bound. -/
theorem get_tbd_url_politeness_witness :
    List.Chain' (fun p q : Int × Int => p.2 + 2 ≤ q.2)
      (retsOf "h" [Ev.ret "h" "u1" 0 3 3, Ev.ret "h" "u2" 0 9 9]) := by
  refine get_tbd_url_politeness 2
    { St.empty with domains_to_scrape := [("h", [("u1", 0), ("u2", 0)])] }
    { St.empty with domains_to_scrape := [("h", [])], last_request_time := [("h", 9)] }
    [Ev.ret "h" "u1" 0 3 3, Ev.ret "h" "u2" 0 9 9] "h"
    ?_ (List.Chain.cons (by decide) (List.Chain.cons (by decide)
      (List.Chain.cons (by decide) List.Chain.nil))) rfl
  refine Reaches.cons (SchedStep.next _ [(3, 3)] "h" "u1" 0 3 3
    { St.empty with domains_to_scrape := [("h", [("u2", 0)])], last_request_time := [("h", 3)] } (by decide)) ?_
  refine Reaches.cons (SchedStep.next _ [(9, 9)] "h" "u2" 0 9 9
    { St.empty with domains_to_scrape := [("h", [])], last_request_time := [("h", 9)] } (by decide)) ?_
  exact Reaches.nil _
